import Mathlib

/-!
# libusb Android helper client (`libusb/os/linux_android_helper.c`)

A shallow embedding of the client side of the helper-service protocol:
the retrying read loop, the framed string codec, the descriptor-passing
receiver, the device-handle request and the hotplug event monitor.

Conventions of the embedding.

* A byte is a `Nat` (its value is taken modulo 256 where the code looks at it).
* A C array object is its content, cell index to cell value (`Nat → α`);
  a store updates one cell.
* The input side of a descriptor is a script of what the successive
  `read(2)` calls will find (`ReadEv`); when the script is used up the peer
  has shut down and `read` returns 0.  The output side is a script of what
  the successive `write(2)` calls accept (`WriteEv`).
* Every `close(2)` call is recorded, in order, in a list of closed
  descriptors.
-/

set_option maxRecDepth 100000

namespace AndroidHelper

/-! ## Constants of the C environment -/

/-- The value of `EINTR` in `errno.h`. -/
def EINTR : Nat := 4

/-- The value of `ENOMEM` in `errno.h`. -/
def ENOMEM : Nat := 12

/-- The value of `EBADMSG` in `errno.h`. -/
def EBADMSG : Nat := 74

/-- The value of `EMSGSIZE` in `errno.h`. -/
def EMSGSIZE : Nat := 90

/-- The value of `PATH_MAX` in `limits.h`. -/
def PATH_MAX : Nat := 4096

/-! ## Reliable byte I/O -/

/-- What one `read(2)` call finds on the descriptor: bytes that have arrived
(`data []` is end of file), or a failure with the given `errno`. -/
inductive ReadEv where
  | data (bs : List Nat)
  | error (errno : Nat)
deriving DecidableEq, Repr

/-- Outcome of a read: the returned value `r`, the bytes stored at the start
of the destination, and what is left on the descriptor. -/
structure ReadRet where
  r : Int
  bytes : List Nat
  fd : List ReadEv
deriving DecidableEq, Repr

/-- One call `read(fd, data, len)`: at most `len` of the bytes that have
arrived are taken, the others stay on the descriptor. -/
def read (fd : List ReadEv) (len : Nat) : ReadRet :=
  match fd with
  | [] => ⟨0, [], []⟩
  | .error _ :: rest => ⟨-1, [], rest⟩
  | .data bs :: rest =>
    if bs.length ≤ len then ⟨bs.length, bs, rest⟩
    else ⟨len, bs.take len, .data (bs.drop len) :: rest⟩

/-- The call `TEMP_FAILURE_RETRY(read(fd, data, len))`: the read is repeated
as long as it returns -1 with `errno == EINTR`. -/
def read_retry : List ReadEv → Nat → ReadRet
  | .error e :: rest, len =>
    if e = EINTR then read_retry rest len else read (.error e :: rest) len
  | fd, len => read fd len

/-- The function `readAll(fd, data, len)`, with `acc` the bytes already stored
at the start of `data` by earlier turns of the loop.

```c
ssize_t r = 0;
do {
    data += r;
    len -= r;
    r = TEMP_FAILURE_RETRY(read(fd, data, len));
} while (r > 0 && r < len);
return r;
```

The recursion is on the script: an `EINTR` failure repeats the read, a read
of `0 < r < len` bytes takes a whole arrival and goes round the loop with
`len - r`, anything else ends the loop and `r` is returned. -/
def readAllFrom : List ReadEv → Nat → List Nat → ReadRet
  | [], _, acc => ⟨0, acc, []⟩
  | .error e :: rest, len, acc =>
    if e = EINTR then readAllFrom rest len acc else ⟨-1, acc, rest⟩
  | .data bs :: rest, len, acc =>
    if 0 < bs.length ∧ bs.length < len then
      readAllFrom rest (len - bs.length) (acc ++ bs)
    else if bs.length ≤ len then ⟨bs.length, acc ++ bs, rest⟩
    else ⟨len, acc ++ bs.take len, .data (bs.drop len) :: rest⟩

/-- The function `readAll(fd, data, len)` as the callers use it. -/
def readAll (fd : List ReadEv) (len : Nat) : ReadRet :=
  readAllFrom fd len []

/-- The bytes a descriptor hands over, in order, until end of file or a
failure other than `EINTR`. -/
def delivered : List ReadEv → List Nat
  | [] => []
  | .error e :: rest => if e = EINTR then delivered rest else []
  | .data bs :: rest => if bs = [] then [] else bs ++ delivered rest

/-! ## Framed string codec -/

/-- What one `write(2)` call meets: the descriptor accepts up to `k` bytes,
or the call fails. -/
inductive WriteEv where
  | accept (k : Nat)
  | error (errno : Nat)
deriving DecidableEq, Repr

/-- Outcome of a write: the returned value, the bytes put on the wire, and
the rest of the script. -/
structure WriteRet where
  r : Int
  wire : List Nat
  out : List WriteEv
deriving DecidableEq, Repr

/-- One call `write(fd, data, len)` with `bs` the `len` bytes at `data`.
With the script used up the peer is gone and the call fails. -/
def write (out : List WriteEv) (bs : List Nat) : WriteRet :=
  match out with
  | [] => ⟨-1, [], []⟩
  | .error _ :: rest => ⟨-1, [], rest⟩
  | .accept k :: rest => ⟨(min k bs.length : Nat), bs.take k, rest⟩

/-- The function `strlen`: the number of bytes before the first NUL. -/
def strlen (str : List Nat) : Nat :=
  (str.takeWhile (fun b => b % 256 != 0)).length

/-- The two bytes of `htons(len)` as they lie in memory (big-endian). -/
def htons (len : Nat) : List Nat :=
  [len / 256 % 256, len % 256]

/-- The value `ntohs(n_len)` of the two bytes of `n_len` in memory. -/
def ntohs (n_len : List Nat) : Nat :=
  (n_len.getD 0 0 % 256) * 256 + n_len.getD 1 0 % 256

/-- Outcome of `sendStr`: the returned value, the bytes put on the wire and
the rest of the write script. -/
structure SendRet where
  ret : Int
  wire : List Nat
  out : List WriteEv
deriving DecidableEq, Repr

/-- The function `sendStr(fd, str)`.

```c
const uint16_t len = strlen(str);
const uint16_t n_len = htons(len);
if (write(fd, &n_len, 2) < 2) return -1;
if (len > 0)
    if (write(fd, str, len) < len) return -1;
return 0;
``` -/
def sendStr (out : List WriteEv) (str : List Nat) : SendRet :=
  let len : Nat := strlen str % 65536
  let w1 := write out (htons len)
  if w1.r < 2 then ⟨-1, w1.wire, w1.out⟩
  else if 0 < len then
    let w2 := write w1.out (str.take len)
    if w2.r < (len : Int) then ⟨-1, w1.wire ++ w2.wire, w2.out⟩
    else ⟨0, w1.wire ++ w2.wire, w2.out⟩
  else ⟨0, w1.wire, w1.out⟩

/-- Store of the bytes `bs` at the start of the array `buf`. -/
def storeBytes (buf : Nat → Nat) (bs : List Nat) : Nat → Nat :=
  fun i => if i < bs.length then bs.getD i 0 else buf i

/-- Store of one cell: `buf[i] = v`. -/
def storeAt {α : Type} (buf : Nat → α) (i : Nat) (v : α) : Nat → α :=
  fun j => if j = i then v else buf j

/-- Outcome of `recvStr`: the returned value, the destination buffer and what
is left on the descriptor. -/
structure RecvStrRet where
  ret : Int
  buf : Nat → Nat
  fd : List ReadEv

/-- The function `recvStr(fd, buf, size)`.

```c
uint16_t n_len;
ssize_t r = readAll(fd, &n_len, sizeof(n_len));
const uint16_t len = ntohs(n_len);
if (r != 2 || len >= size) return -1;
if (len == 0) { buf[0] = 0; return 0; }
r = readAll(fd, buf, len);
buf[len] = 0;
if (r <= 0) return -1;
return len;
```

The bytes of `n_len` that the read did not store are indeterminate; they are
only looked at when `r == 2`, when both were stored. -/
def recvStr (fd : List ReadEv) (buf : Nat → Nat) (size : Int) : RecvStrRet :=
  let p := readAll fd 2
  let len : Nat := ntohs p.bytes
  if p.r ≠ 2 ∨ (len : Int) ≥ size then ⟨-1, buf, p.fd⟩
  else if len = 0 then ⟨0, storeAt buf 0 0, p.fd⟩
  else
    let q := readAll p.fd len
    let buf1 := storeAt (storeBytes buf q.bytes) len 0
    if q.r ≤ 0 then ⟨-1, buf1, q.fd⟩ else ⟨len, buf1, q.fd⟩

/-! ## Descriptor-passing receiver -/

/-- The sizes the C environment fixes for `recvFds`: the width of `size_t`,
`sizeof(int)`, `sizeof(struct cmsghdr)`, the unit of `CMSG_ALIGN` and the
value of `getpagesize()`. -/
structure Platform where
  sizeBits : Nat
  sizeofInt : Nat
  cmsghdrSize : Nat
  cmsgAlign : Nat
  pageSize : Nat
deriving DecidableEq, Repr

/-- The sizes of 64-bit Linux and Android. -/
def lp64 : Platform := ⟨64, 4, 16, 8, 4096⟩

/-- The sizes of 32-bit Linux and Android. -/
def ilp32 : Platform := ⟨32, 4, 12, 4, 4096⟩

/-- The number of values of `size_t`. -/
def Platform.sizeMod (P : Platform) : Nat := 2 ^ P.sizeBits

/-- The macro `CMSG_ALIGN(len)` of the socket headers, in `size_t`. -/
def Platform.CMSG_ALIGN (P : Platform) (len : Nat) : Nat :=
  ((len + P.cmsgAlign - 1) / P.cmsgAlign * P.cmsgAlign) % P.sizeMod

/-- The macro `CMSG_LEN(len)` of the socket headers, in `size_t`. -/
def Platform.CMSG_LEN (P : Platform) (len : Nat) : Nat :=
  (P.CMSG_ALIGN P.cmsghdrSize + len) % P.sizeMod

/-- The macro `CMSG_SPACE(len)` of the socket headers, in `size_t`. -/
def Platform.CMSG_SPACE (P : Platform) (len : Nat) : Nat :=
  (P.CMSG_ALIGN len + P.CMSG_ALIGN P.cmsghdrSize) % P.sizeMod

/-- The value of `SOL_SOCKET` on Linux. -/
def SOL_SOCKET : Int := 1

/-- The value of `SCM_RIGHTS` on Linux. -/
def SCM_RIGHTS : Int := 1

/-- The value of `MSG_TRUNC` on Linux. -/
def MSG_TRUNC : Nat := 0x20

/-- The value of `MSG_CTRUNC` on Linux. -/
def MSG_CTRUNC : Nat := 0x08

/-- One ancillary block as the walk `CMSG_FIRSTHDR` / `CMSG_NXTHDR` meets it:
the three header fields and the `int` cells at `CMSG_DATA`, which are the
descriptors the block carries. -/
structure Cmsg where
  cmsg_len : Nat
  cmsg_level : Int
  cmsg_type : Int
  cmsg_fds : List Int
deriving DecidableEq, Repr

/-- What `TEMP_FAILURE_RETRY(recvmsg(sockfd, &msg, flags))` leaves behind:
its returned value, `msg.msg_flags` and the ancillary blocks.  The in-band
bytes are stored by `recvmsg` itself and the code never looks at them. -/
structure Msg where
  rc : Int
  msg_flags : Nat
  control : List Cmsg
deriving DecidableEq, Repr

/-- The calls of `usbi_err` in `recvFds`. -/
inductive LogMsg where
  | truncated
  | controlTruncated
  | unexpectedCmsg
  | notAligned
  | notLongEnough
  | tooManyFds
deriving DecidableEq, Repr

/-- Outcome of `recvFds`: the returned value, the `errno` it set (if it set
one), the array `fds`, the value of `*fds_count`, the descriptors it closed
and the errors it logged. -/
structure RecvFdsRet where
  ret : Int
  errno : Option Nat
  fds : Nat → Int
  fds_count : Nat
  closed : List Int
  log : List LogMsg

/-- The function `closeFds(fds, cnt)`: `while (cnt--) close(fds[cnt]);`,
as the list of the descriptors closed, in order. -/
def closeFds (fds : Nat → Int) : Nat → List Int
  | 0 => []
  | cnt + 1 => fds cnt :: closeFds fds cnt

/-- The inner loop of `recvFds`,
`for (i = 0; i < cmsg_fdcount; ++i, ++out_fd_i) fds[out_fd_i] = cmsg_fds[i];`
with `n` the turns still to go (`out_fd_i` is a `size_t`). -/
def copyFds (P : Platform) (cmsg_fds : List Int) :
    Nat → Nat → Nat → (Nat → Int) → (Nat → Int)
  | 0, _, _, fds => fds
  | n + 1, i, out_fd_i, fds =>
    copyFds P cmsg_fds n (i + 1) ((out_fd_i + 1) % P.sizeMod)
      (storeAt fds out_fd_i (cmsg_fds.getD i 0))

/-- The value `(size_t) (cmsg->cmsg_len - CMSG_LEN(0)) / sizeof(int)`. -/
def Platform.fdcount (P : Platform) (cmsg_len : Nat) : Nat :=
  ((cmsg_len % P.sizeMod + P.sizeMod - P.CMSG_LEN 0) % P.sizeMod) / P.sizeofInt

/-- The two length checks of `recvFds`, which log and go on:

```c
if (cmsg->cmsg_len % sizeof(int) != 0) {
    usbi_err(NULL, "cmsg_len(%lu) not aligned to sizeof(int)", ...);
} else if (cmsg->cmsg_len <= CMSG_LEN(0)) {
    usbi_err(NULL, "cmsg_len(%lu) not long enough to hold any data", ...);
}
``` -/
def Platform.lengthLog (P : Platform) (cmsg_len : Nat) : List LogMsg :=
  if cmsg_len % P.sizeofInt ≠ 0 then [.notAligned]
  else if cmsg_len ≤ P.CMSG_LEN 0 then [.notLongEnough]
  else []

/-- The walk over the ancillary blocks in `recvFds`, from the block list still
to visit, the array `fds`, the index `out_fd_i` and the log so far; `K` is
`*fds_count` and `rc` the value `recvmsg` returned. -/
def recvFdsWalk (P : Platform) (K : Nat) (rc : Int) :
    List Cmsg → (Nat → Int) → Nat → List LogMsg → RecvFdsRet
  | [], fds, out_fd_i, log => ⟨rc, none, fds, out_fd_i, [], log⟩
  | c :: rest, fds, out_fd_i, log =>
    if c.cmsg_level ≠ SOL_SOCKET ∨ c.cmsg_type ≠ SCM_RIGHTS then
      ⟨-1, some EBADMSG, fds, K, closeFds fds out_fd_i, log ++ [.unexpectedCmsg]⟩
    else
      let log1 := log ++ P.lengthLog c.cmsg_len
      let cmsg_fdcount := P.fdcount c.cmsg_len
      if (out_fd_i + cmsg_fdcount) % P.sizeMod > K then
        ⟨-1, some EMSGSIZE, fds, K, closeFds fds out_fd_i, log1 ++ [.tooManyFds]⟩
      else
        recvFdsWalk P K rc rest (copyFds P c.cmsg_fds cmsg_fdcount 0 out_fd_i fds)
          ((out_fd_i + cmsg_fdcount) % P.sizeMod) log1

/-- The function `recvFds(sockfd, data, len, fds, fds_count)`, with `m` what
the one `recvmsg` call on the socket leaves behind and `K` the value of
`*fds_count` at the call. -/
def recvFds (P : Platform) (m : Msg) (fds : Nat → Int) (K : Nat) : RecvFdsRet :=
  let cmsg_space := P.CMSG_SPACE ((P.sizeofInt * K) % P.sizeMod)
  if cmsg_space ≥ P.pageSize then ⟨-1, some ENOMEM, fds, K, [], []⟩
  else if m.rc = -1 then ⟨-1, none, fds, K, [], []⟩
  else if m.msg_flags &&& MSG_TRUNC ≠ 0 then ⟨-1, some EMSGSIZE, fds, K, [], [.truncated]⟩
  else if m.msg_flags &&& MSG_CTRUNC ≠ 0 then
    ⟨-1, some EMSGSIZE, fds, K, [], [.controlTruncated]⟩
  else recvFdsWalk P K m.rc m.control fds 0 []

/-! ## Connection lifecycle and the device-handle request -/

/-- The value of `LIBUSB_SUCCESS` in `libusb.h`. -/
def LIBUSB_SUCCESS : Int := 0

/-- The value of the I/O error code of `libusb.h`. -/
def LIBUSB_ERROR_IO : Int := -1

/-- The value of `LIBUSB_ERROR_OTHER` in `libusb.h`. -/
def LIBUSB_ERROR_OTHER : Int := -99

/-- The function `servConnOpen()`, from what `socket` and `connect` return:
the returned value and the descriptors closed. -/
def servConnOpen (socket connect : Int) : Int × List Int :=
  if socket < 0 then (-1, [])
  else if connect < 0 then (-1, [socket])
  else (socket, [])

/-- The conversion `%03u` of `snprintf`: decimal digits, padded with zeros on
the left to at least three characters. -/
def fmt03u (n : Nat) : List Char :=
  let ds := Nat.toDigits 10 n
  List.replicate (3 - ds.length) '0' ++ ds

/-- The call `snprintf(name, sizeof(name), "/dev/bus/usb/%03u/%03u", bus, dev)`
with `name` of `PATH_MAX` bytes: the string left in `name`. -/
def usbfsName (bus_number device_address : Nat) : List Char :=
  ("/dev/bus/usb/".toList ++ fmt03u bus_number ++ '/' :: fmt03u device_address).take
    (PATH_MAX - 1)

/-- The two fields of `struct libusb_device` the helper reads (both `uint8_t`). -/
structure libusb_device where
  bus_number : Nat
  device_address : Nat
deriving DecidableEq, Repr

/-- What the system calls of one run of `linux_android_helper_get_usbfs_fd`
return: `socket`, `connect`, the write script of the connection, the message
`recvmsg` delivers and `lseek`. -/
structure RpcEnv where
  socket : Int
  connect : Int
  out : List WriteEv
  msg : Msg
  lseek : Int

/-- Outcome of `linux_android_helper_get_usbfs_fd`: the returned value, the
descriptors closed, the string handed to `sendStr` and the bytes put on the
wire. -/
structure RpcRet where
  ret : Int
  closed : List Int
  request : List Char
  wire : List Nat
deriving DecidableEq, Repr

/-- The function `linux_android_helper_get_usbfs_fd(dev, silent)`.

```c
const int sock = servConnOpen();
char name[PATH_MAX];
snprintf(name, sizeof(name), "/dev/bus/usb/%03u/%03u", dev->bus_number, dev->device_address);
if (sendStr(sock, name) < 0) return LIBUSB_ERROR_IO;
char result; int fd; size_t fdsNum = 1;
if (recvFds(sock, &result, sizeof(result), &fd, &fdsNum) < 1 || fdsNum != 1)
    return LIBUSB_ERROR_IO;
close(sock);
if (lseek(fd, 0, SEEK_SET) < 0) return LIBUSB_ERROR_IO;
return fd;
```

A write on the descriptor -1 of a failed `servConnOpen` fails.  The variable
`fd` is indeterminate until `recvFds` stores a descriptor in it, and is read
only when `fdsNum` is 1. -/
def linux_android_helper_get_usbfs_fd (P : Platform) (env : RpcEnv) (dev : libusb_device) :
    RpcRet :=
  let sock := servConnOpen env.socket env.connect
  let name := usbfsName (dev.bus_number % 256) (dev.device_address % 256)
  let s := sendStr (if sock.1 < 0 then [] else env.out) (name.map Char.toNat)
  if s.ret < 0 then ⟨ LIBUSB_ERROR_IO, sock.2, name, s.wire⟩
  else
    let r := recvFds P env.msg (fun _ => 0) 1
    if r.ret < 1 ∨ r.fds_count ≠ 1 then ⟨ LIBUSB_ERROR_IO, sock.2 ++ r.closed, name, s.wire⟩
    else if env.lseek < 0 then ⟨ LIBUSB_ERROR_IO, sock.2 ++ r.closed ++ [sock.1], name, s.wire⟩
    else ⟨r.fds 0, sock.2 ++ r.closed ++ [sock.1], name, s.wire⟩

/-! ## Event monitor -/

/-- One call `on_dev_event(devName, detach, notEvent)`: the device name (a C
string) and the two flags handed to the enumeration side. -/
structure DevEvent where
  devName : List Nat
  detach : Bool
  notEvent : Bool
deriving DecidableEq, Repr

/-- The C string in the array `buf` from index `i` on, looking at no more than
`n` cells. -/
def cstr (buf : Nat → Nat) : Nat → Nat → List Nat
  | 0, _ => []
  | n + 1, i => if buf i % 256 = 0 then [] else buf i :: cstr buf n (i + 1)

/-- The function `on_dev_event(devName, detach, notEvent)` as the call it
makes into the enumeration side (`linux_get_device_address`, then
`linux_device_disconnected` or `linux_hotplug_enumerate`); its returned value
is dropped by every caller. -/
def on_dev_event (devName : Nat → Nat) (detach notEvent : Bool) : DevEvent :=
  ⟨cstr devName PATH_MAX 0, detach, notEvent⟩

/-- The size of a read script: one for every entry and one for every byte. -/
def fdSize : List ReadEv → Nat
  | [] => 0
  | .data bs :: rest => 1 + bs.length + fdSize rest
  | .error _ :: rest => 1 + fdSize rest

/-- Outcome of `getDevList`: the returned value, the calls of `on_dev_event`,
the array `devName` and what is left on the descriptor. -/
structure DevListRet where
  ret : Int
  events : List DevEvent
  devName : Nat → Nat
  fd : List ReadEv

/-- The loop of `getDevList`,

```c
while ((r = recvStr(fd, devName, sizeof(devName))) > 0) {
    on_dev_event(devName, 0, 1);
}
return r;
```

with a bound on the number of turns. -/
def getDevListLoop : Nat → List ReadEv → (Nat → Nat) → List DevEvent → DevListRet
  | 0, fd, devName, evs => ⟨-1, evs, devName, fd⟩
  | fuel + 1, fd, devName, evs =>
    let s := recvStr fd devName PATH_MAX
    if s.ret > 0 then
      getDevListLoop fuel s.fd s.buf (evs ++ [on_dev_event s.buf false true])
    else ⟨s.ret, evs, s.buf, s.fd⟩

/-- The function `getDevList(fd)`.  Every turn of the loop that goes on takes
something off the descriptor, so the size of the script bounds the turns. -/
def getDevList (fd : List ReadEv) (devName : Nat → Nat) : DevListRet :=
  getDevListLoop (fdSize fd + 1) fd devName []

/-- The value of `DEV_DETACHED`. -/
def DEV_DETACHED : Nat := 1

/-- The structure `new_dev_evt_t`. -/
structure new_dev_evt_t where
  action : Nat
  dev_name : Nat → Nat

/-- Outcome of `getNewDevEvent`: the returned value, the structure `*newDev`
and what is left on the descriptor. -/
structure NewDevRet where
  ret : Int
  newDev : new_dev_evt_t
  fd : List ReadEv

/-- The function `getNewDevEvent(fd, newDev)`.

```c
uint8_t action;
r = readAll(fd, &action, sizeof(action));
if (r != 1) return -1;
r = recvStr(fd, newDev->dev_name, sizeof(newDev->dev_name));
newDev->action = action;
if (r < 0) return -1;
return 0;
``` -/
def getNewDevEvent (fd : List ReadEv) (newDev : new_dev_evt_t) : NewDevRet :=
  let a := readAll fd 1
  if a.r ≠ 1 then ⟨-1, newDev, a.fd⟩
  else
    let s := recvStr a.fd newDev.dev_name PATH_MAX
    let newDev1 : new_dev_evt_t := ⟨a.bytes.getD 0 0 % 256, s.buf⟩
    if s.ret < 0 then ⟨-1, newDev1, s.fd⟩ else ⟨0, newDev1, s.fd⟩

/-- The value of `POLLIN` in `poll.h`. -/
def POLLIN : Nat := 0x001

/-- The value of `POLLHUP` in `poll.h`. -/
def POLLHUP : Nat := 0x010

/-- What one `TEMP_FAILURE_RETRY(poll(pfds, 2, -1))` leaves behind: its
returned value, `pfds[0].revents` (the read end of the control pipe) and
`pfds[1].revents` (the event connection). -/
structure PollRet where
  r : Int
  revents0 : Nat
  revents1 : Nat
deriving DecidableEq, Repr

/-- How a run of the monitor thread stands: it returned through the
"Event monitor exit" branch, after an event protocol error, after a poll
error, or it is blocked in `poll` with the script of wakes used up. -/
inductive MonitorEnd where
  | monitorExit
  | protocolError
  | pollError
  | blockedInPoll
deriving DecidableEq, Repr

/-- Outcome of the monitor thread: how it stands, the number of calls of
`getNewDevEvent`, the calls of `on_dev_event` and what is left on the event
connection. -/
structure MonitorRet where
  ending : MonitorEnd
  reads : Nat
  events : List DevEvent
  fd : List ReadEv
deriving DecidableEq, Repr

/-- The function `event_thread_main`, over the script of the wakes of `poll`.

```c
while (TEMP_FAILURE_RETRY(poll(pfds, 2, -1)) > 0) {
    if (pfds[1].revents == 0) { usbi_dbg("Event monitor exit"); return NULL; }
    int r = getNewDevEvent(event_fd, &new_dev);
    if (r < 0) { usbi_err(NULL, "Event protocol error"); return NULL; }
    on_dev_event(new_dev.dev_name, new_dev.action == DEV_DETACHED, 0);
}
usbi_err(NULL, "Event monitor poll error");
return NULL;
``` -/
def event_thread_main : List PollRet → List ReadEv → new_dev_evt_t → MonitorRet
  | [], fd, _ => ⟨.blockedInPoll, 0, [], fd⟩
  | p :: polls, fd, new_dev =>
    if p.r > 0 then
      if p.revents1 = 0 then ⟨.monitorExit, 0, [], fd⟩
      else
        let e := getNewDevEvent fd new_dev
        if e.ret < 0 then ⟨.protocolError, 1, [], e.fd⟩
        else
          let ev := on_dev_event e.newDev.dev_name (e.newDev.action == DEV_DETACHED) false
          let m := event_thread_main polls e.fd e.newDev
          ⟨m.ending, m.reads + 1, ev :: m.events, m.fd⟩
    else ⟨.pollError, 0, [], fd⟩

/-- The file-scope variables `event_fd` and `event_ctl_pipe`. -/
structure Globals where
  event_fd : Int
  event_ctl_pipe : Int × Int
deriving DecidableEq, Repr

/-- The file-scope variables before the first call. -/
def Globals.init : Globals := ⟨-1, (-1, -1)⟩

/-- What the system calls of one run of
`linux_android_helper_start_event_monitor` return: `socket`, `connect`, the
write script of the connection, `usbi_pipe` with the two descriptors it makes,
the read script of the connection and `pthread_create`. -/
structure StartEnv where
  socket : Int
  connect : Int
  out : List WriteEv
  pipe_r : Int
  pipe_fds : Int × Int
  fd : List ReadEv
  pthread_create : Int

/-- Outcome of `linux_android_helper_start_event_monitor`: the returned
value, the file-scope variables, the descriptors closed, the calls of
`on_dev_event`, and whether the monitor thread was created. -/
structure StartRet where
  ret : Int
  globals : Globals
  closed : List Int
  events : List DevEvent
  thread : Bool
deriving DecidableEq, Repr

/-- The function `linux_android_helper_start_event_monitor()`.

```c
event_fd = servConnOpen();
if (event_fd == -1) return LIBUSB_ERROR_OTHER;
r = sendStr(event_fd, "");
if (r) goto error_after_serv;
r = usbi_pipe(event_ctl_pipe);
if (r) goto error_after_serv;
r = getDevList(event_fd);
if (r) goto error_after_pipe;
r = pthread_create(&event_th, NULL, event_thread_main, NULL);
if (r) goto error_after_pipe;
return LIBUSB_SUCCESS;
error_after_pipe:
close(event_ctl_pipe[1]); event_ctl_pipe[1] = -1;
close(event_ctl_pipe[0]); event_ctl_pipe[0] = -1;
error_after_serv:
servConnClose(event_fd); event_fd = -1;
return LIBUSB_ERROR_OTHER;
```

The array `devName` of `getDevList` is indeterminate until `recvStr` stores a
name in it, and is handed on only after that. -/
def linux_android_helper_start_event_monitor (env : StartEnv) (g : Globals) : StartRet :=
  let sock := servConnOpen env.socket env.connect
  if sock.1 = -1 then ⟨ LIBUSB_ERROR_OTHER, ⟨sock.1, g.event_ctl_pipe⟩, sock.2, [], false⟩
  else
    let s := sendStr env.out []
    if s.ret ≠ 0 then
      ⟨ LIBUSB_ERROR_OTHER, ⟨-1, g.event_ctl_pipe⟩, sock.2 ++ [sock.1], [], false⟩
    else if env.pipe_r ≠ 0 then
      ⟨ LIBUSB_ERROR_OTHER, ⟨-1, g.event_ctl_pipe⟩, sock.2 ++ [sock.1], [], false⟩
    else
      let d := getDevList env.fd (fun _ => 0)
      if d.ret ≠ 0 then
        ⟨ LIBUSB_ERROR_OTHER, ⟨-1, (-1, -1)⟩,
          sock.2 ++ [env.pipe_fds.2, env.pipe_fds.1, sock.1], d.events, false⟩
      else if env.pthread_create ≠ 0 then
        ⟨ LIBUSB_ERROR_OTHER, ⟨-1, (-1, -1)⟩,
          sock.2 ++ [env.pipe_fds.2, env.pipe_fds.1, sock.1], d.events, false⟩
      else ⟨ LIBUSB_SUCCESS, ⟨sock.1, env.pipe_fds⟩, sock.2, d.events, true⟩

/-! ## Inputs named by the properties -/

/-- The frame of the string `e` on the wire: the length in two bytes, high
byte first, then the bytes of `e`. -/
def frame (e : List Nat) : List Nat :=
  e.length / 256 :: e.length % 256 :: e

/-- The descriptors a message carries: the descriptors of its ancillary blocks,
in the order of the blocks. -/
def carried : List Cmsg → List Int
  | [] => []
  | c :: rest => c.cmsg_fds ++ carried rest

/-- A well-formed descriptor-carrying block: tagged `SOL_SOCKET` /
`SCM_RIGHTS`, with a declared length (a `size_t`) that is a whole multiple of
`sizeof(int)` and larger than `CMSG_LEN(0)`, and carrying as many descriptors
as the length declares. -/
def WellFormed (P : Platform) (c : Cmsg) : Prop :=
  c.cmsg_level = SOL_SOCKET ∧ c.cmsg_type = SCM_RIGHTS ∧ c.cmsg_len < P.sizeMod ∧
    c.cmsg_len % P.sizeofInt = 0 ∧ P.CMSG_LEN 0 < c.cmsg_len ∧
    c.cmsg_fds.length * P.sizeofInt = c.cmsg_len - P.CMSG_LEN 0

instance (P : Platform) (c : Cmsg) : Decidable (WellFormed P c) := by
  unfold WellFormed
  infer_instance

/-- How the initial backlog on the event connection ends: with a frame of
length zero, with end of file, with a read failure, with a length whose two
bytes do not come in one read, or with a frame whose declared length is
`PATH_MAX` or more. -/
inductive BacklogEnd where
  | emptyFrame
  | eof
  | readError
  | splitLength
  | longFrame
deriving DecidableEq, Repr

/-- The length that the two length bytes of a frame give, high byte first. -/
def wireLength (hi lo : Nat) : Nat :=
  hi % 256 * 256 + lo % 256

/-- The device name the enumeration side is given for the payload `s`: a C
string, the bytes of `s` before the first NUL. -/
def cName (s : List Nat) : List Nat :=
  s.takeWhile (fun b => b % 256 != 0)

/-- The descriptor hands over the two length bytes `hi`, `lo` of a frame in
one read, after any number of interrupted reads, and `fd1` is what is then
left on it: the two bytes are a whole arrival, or the start of an arrival
whose other bytes stay on the descriptor. -/
inductive Header : List ReadEv → Nat → Nat → List ReadEv → Prop where
  | eintr (rest : List ReadEv) (hi lo : Nat) (fd1 : List ReadEv) :
      Header rest hi lo fd1 → Header (.error EINTR :: rest) hi lo fd1
  | whole (hi lo : Nat) (rest : List ReadEv) :
      Header (.data [hi, lo] :: rest) hi lo rest
  | part (hi lo : Nat) (extra : List Nat) (rest : List ReadEv) : extra ≠ [] →
      Header (.data (hi :: lo :: extra) :: rest) hi lo (.data extra :: rest)

/-- The descriptor hands over the bytes `bs`, at least one, in any number of
reads with any number of interrupted reads between them, and `fd1` is what is
then left on it: the last of the bytes end an arrival, or they are followed in
their arrival by bytes that stay on the descriptor. -/
inductive Delivers : List ReadEv → List Nat → List ReadEv → Prop where
  | eintr (rest : List ReadEv) (bs : List Nat) (fd1 : List ReadEv) :
      Delivers rest bs fd1 → Delivers (.error EINTR :: rest) bs fd1
  | whole (bs : List Nat) (rest : List ReadEv) : bs ≠ [] →
      Delivers (.data bs :: rest) bs rest
  | part (bs extra : List Nat) (rest : List ReadEv) : bs ≠ [] → extra ≠ [] →
      Delivers (.data (bs ++ extra) :: rest) bs (.data extra :: rest)
  | more (a : List Nat) (rest : List ReadEv) (bs : List Nat) (fd1 : List ReadEv) : a ≠ [] →
      Delivers rest bs fd1 → Delivers (.data a :: rest) (a ++ bs) fd1

/-- The descriptor comes to end of file (`BacklogEnd.eof`) or to a read
failure other than `EINTR` (`BacklogEnd.readError`) before it has handed over
`n` bytes. -/
inductive CutShort : List ReadEv → Nat → BacklogEnd → Prop where
  | used (n : Nat) : CutShort [] n .eof
  | eof (rest : List ReadEv) (n : Nat) : CutShort (.data [] :: rest) n .eof
  | error (errno : Nat) (rest : List ReadEv) (n : Nat) : errno ≠ EINTR →
      CutShort (.error errno :: rest) n .readError
  | eintr (rest : List ReadEv) (n : Nat) (e : BacklogEnd) :
      CutShort rest n e → CutShort (.error EINTR :: rest) n e
  | more (a : List Nat) (rest : List ReadEv) (n : Nat) (e : BacklogEnd) : a ≠ [] →
      a.length < n → CutShort rest (n - a.length) e → CutShort (.data a :: rest) n e

/-- What is on the descriptor is no further device name but the ending `e` of
the backlog: end of file or a read failure where a frame would start or
inside its payload, a first arrival of one byte only, a length of zero, or a
length of `PATH_MAX` or more. -/
inductive Ends : List ReadEv → BacklogEnd → Prop where
  | eintr (rest : List ReadEv) (e : BacklogEnd) : Ends rest e → Ends (.error EINTR :: rest) e
  | used : Ends [] .eof
  | eof (rest : List ReadEv) : Ends (.data [] :: rest) .eof
  | error (errno : Nat) (rest : List ReadEv) : errno ≠ EINTR →
      Ends (.error errno :: rest) .readError
  | split (b : Nat) (rest : List ReadEv) : Ends (.data [b] :: rest) .splitLength
  | empty (fd : List ReadEv) (hi lo : Nat) (fd1 : List ReadEv) : Header fd hi lo fd1 →
      wireLength hi lo = 0 → Ends fd .emptyFrame
  | long (fd : List ReadEv) (hi lo : Nat) (fd1 : List ReadEv) : Header fd hi lo fd1 →
      PATH_MAX ≤ wireLength hi lo → Ends fd .longFrame
  | cut (fd : List ReadEv) (hi lo : Nat) (fd1 : List ReadEv) (e : BacklogEnd) :
      Header fd hi lo fd1 → 0 < wireLength hi lo → wireLength hi lo < PATH_MAX →
      CutShort fd1 (wireLength hi lo) e → Ends fd e

/-- The descriptor holds a backlog of the device names `entries`, each in a
frame with a length between 1 and `PATH_MAX - 1`, and then the ending `e`,
in whatever arrivals the bytes come. -/
inductive Backlog : List ReadEv → List (List Nat) → BacklogEnd → Prop where
  | ending (fd : List ReadEv) (e : BacklogEnd) : Ends fd e → Backlog fd [] e
  | entry (fd : List ReadEv) (hi lo : Nat) (fd1 : List ReadEv) (s : List Nat)
      (fd2 : List ReadEv) (es : List (List Nat)) (e : BacklogEnd) :
      Header fd hi lo fd1 → wireLength hi lo = s.length → s.length < PATH_MAX →
      Delivers fd1 s fd2 → Backlog fd2 es e → Backlog fd (s :: es) e

/-- The character of the decimal digit `k`. -/
def digitChar (k : Nat) : Char :=
  Char.ofNat (48 + k)

/-- The three decimal digits of `n`, hundreds first. -/
def threeDigits (n : Nat) : List Char :=
  [digitChar (n / 100), digitChar (n / 10 % 10), digitChar (n % 10)]

/-- The device path of bus `bus` and address `dev`, in the form
`/dev/bus/usb/BBB/DDD`. -/
def devicePath (bus dev : Nat) : List Char :=
  "/dev/bus/usb/".toList ++ threeDigits bus ++ '/' :: threeDigits dev

/-! ## Properties of the read loop -/

/-- The definition of `readAllFrom` is the loop of the source: one retried
read, then either another turn with `data += r; len -= r` or the return of
`r`. -/
theorem readAllFrom_loop (fd : List ReadEv) (len : Nat) (acc : List Nat) :
    readAllFrom fd len acc =
      if 0 < (read_retry fd len).r ∧ (read_retry fd len).r < (len : Int) then
        readAllFrom (read_retry fd len).fd (len - (read_retry fd len).r.toNat)
          (acc ++ (read_retry fd len).bytes)
      else ⟨(read_retry fd len).r, acc ++ (read_retry fd len).bytes, (read_retry fd len).fd⟩ := by
  induction fd generalizing len acc with
  | nil => simp [readAllFrom, read_retry, read]
  | cons ev rest ih =>
    cases ev with
    | error e =>
      by_cases he : e = EINTR
      · rw [readAllFrom, read_retry, if_pos he, if_pos he]
        exact ih len acc
      · simp [readAllFrom, read_retry, read, he]
    | data bs =>
      by_cases h1 : 0 < bs.length ∧ bs.length < len
      · have h2 : bs.length ≤ len := by omega
        simp [readAllFrom, read_retry, read, h1, h2]
      · by_cases h2 : bs.length ≤ len
        · have h3 : ¬ (0 < bs.length ∧ bs.length < len) := h1
          simp only [readAllFrom, read_retry, read, if_neg h3, if_pos h2]
          rw [if_neg]
          intro h
          apply h1
          constructor
          · exact_mod_cast h.1
          · exact_mod_cast h.2
        · simp [readAllFrom, read_retry, read, h1, h2]

/-- The bytes `readAll` stores are the first `len` bytes the descriptor hands
over (fewer when it hands over fewer). -/
theorem readAllFrom_bytes (fd : List ReadEv) (len : Nat) (acc : List Nat) :
    (readAllFrom fd len acc).bytes = acc ++ (delivered fd).take len := by
  induction fd generalizing len acc with
  | nil => simp [readAllFrom, delivered]
  | cons ev rest ih =>
    cases ev with
    | error e =>
      by_cases he : e = EINTR
      · simp only [readAllFrom, delivered, if_pos he]
        exact ih len acc
      · simp [readAllFrom, delivered, he]
    | data bs =>
      by_cases h1 : 0 < bs.length ∧ bs.length < len
      · have hne : bs ≠ [] := by
          intro h
          simp [h] at h1
        simp only [readAllFrom, delivered, if_pos h1, if_neg hne]
        have hle : bs.length ≤ len := by omega
        rw [ih, List.take_append_eq_append_take, List.take_of_length_le hle]
        simp
      · by_cases h2 : bs.length ≤ len
        · simp only [readAllFrom, delivered, if_neg h1, if_pos h2]
          by_cases hne : bs = []
          · simp [hne]
          · have hl : len - bs.length = 0 := by
              have : 0 < bs.length := List.length_pos.mpr hne
              omega
            simp [hne, List.take_append_eq_append_take, List.take_of_length_le h2, hl]
        · simp only [readAllFrom, delivered, if_neg h1, if_neg h2]
          have hne : bs ≠ [] := by
            intro h
            simp [h] at h2
          have hl : len - bs.length = 0 := by omega
          simp [hne, List.take_append_eq_append_take, hl]

/-- A read that finds at least `len` bytes in one arrival returns `len`
and leaves the other bytes of the arrival on the descriptor. -/
theorem readAll_arrival (bs extra : List Nat) (tail : List ReadEv) :
    readAll (.data (bs ++ extra) :: tail) bs.length =
      ⟨bs.length, bs, if extra = [] then tail else .data extra :: tail⟩ := by
  by_cases he : extra = []
  · subst he
    have h1 : ¬ (0 < bs.length ∧ bs.length < bs.length) := by omega
    simp [readAll, readAllFrom]
  · have hl : 0 < extra.length := List.length_pos.mpr he
    have h1 : ¬ (0 < (bs ++ extra).length ∧ (bs ++ extra).length < bs.length) := by
      simp
    have h2 : ¬ ((bs ++ extra).length ≤ bs.length) := by
      rw [List.length_append]
      omega
    simp only [readAll, readAllFrom, if_neg h1, if_neg h2, if_neg he]
    simp

/-- C3, at the input `len = 2` with the two bytes arriving one per read: both
bytes are read and stored, the descriptor is left empty, and `readAll` returns
1, the count of the last read, where the bytes read in total are 2. -/
theorem readAll_split_returns_last_read :
    readAll [.data [0], .data [5]] 2 = ⟨1, [0, 5], []⟩ ∧
      (readAll [.data [0], .data [5]] 2).r ≠ ((readAll [.data [0], .data [5]] 2).bytes.length : Int) := by
  decide

/-! ## Properties of the framed string codec -/

/-- The length of a string without NUL bytes is the number of its bytes. -/
theorem strlen_of_nul_free (s : List Nat) (hs : ∀ b ∈ s, 0 < b ∧ b < 256) :
    strlen s = s.length := by
  unfold strlen
  rw [List.takeWhile_eq_self_iff.mpr]
  intro b hb
  have h := hs b hb
  have h1 : b % 256 = b := Nat.mod_eq_of_lt h.2
  simp [h1]
  omega

/-- A write that does not come back short has put all its bytes on the
wire. -/
theorem write_full (out : List WriteEv) (bs : List Nat)
    (h : ¬ (write out bs).r < (bs.length : Int)) : (write out bs).wire = bs := by
  cases out with
  | nil =>
    exfalso
    apply h
    simp only [write]
    omega
  | cons w rest =>
    cases w with
    | error e =>
      exfalso
      apply h
      simp only [write]
      omega
    | accept k =>
      simp only [write] at h ⊢
      apply List.take_of_length_le
      have h1 : ¬ (min k bs.length < bs.length) := by
        intro hh
        apply h
        exact_mod_cast hh
      omega

/-- A call of `sendStr` that returns 0 has put the whole frame on the wire:
the length in two bytes, high byte first, then the bytes of the string. -/
theorem sendStr_wire (out : List WriteEv) (s : List Nat) (hs : ∀ b ∈ s, 0 < b ∧ b < 256)
    (hn : s.length ≤ 65535) (hok : (sendStr out s).ret = 0) :
    (sendStr out s).wire = frame s := by
  have hlen : strlen s % 65536 = s.length := by
    rw [strlen_of_nul_free s hs]
    omega
  have hh : htons s.length = [s.length / 256, s.length % 256] := by
    simp only [htons]
    congr 1
    omega
  simp only [sendStr, hlen, List.take_length] at hok ⊢
  by_cases h1 : (write out (htons s.length)).r < 2
  · simp [h1] at hok
  · have hw1 : (write out (htons s.length)).wire = htons s.length := by
      apply write_full
      simpa [htons] using h1
    simp only [if_neg h1] at hok ⊢
    by_cases h0 : 0 < s.length
    · simp only [if_pos h0] at hok ⊢
      by_cases h2 : (write (write out (htons s.length)).out s).r < (s.length : Int)
      · simp [h2] at hok
      · have hw2 : (write (write out (htons s.length)).out s).wire = s :=
          write_full _ s h2
        simp only [if_neg h2]
        rw [hw1, hw2, hh]
        rfl
    · simp only [if_neg h0]
      rw [hw1, hh]
      have : s = [] := by
        apply List.eq_nil_of_length_eq_zero
        omega
      simp [this, frame]

/-- Reading a frame back, whatever follows it in the same arrival: `recvStr`
returns the length and the buffer holds the string and a terminating NUL. -/
theorem recvStr_frame (s extra : List Nat) (tail : List ReadEv) (buf : Nat → Nat) (size : Int)
    (hn : s.length ≤ 65535) (hsize : (s.length : Int) < size) :
    (recvStr (.data (frame s ++ extra) :: tail) buf size).ret = s.length ∧
      (List.range (s.length + 1)).map
        (recvStr (.data (frame s ++ extra) :: tail) buf size).buf = s ++ [0] ∧
      (recvStr (.data (frame s ++ extra) :: tail) buf size).fd =
        if extra = [] then tail else .data extra :: tail := by
  have h2 := readAll_arrival [s.length / 256, s.length % 256] (s ++ extra) tail
  have hfr : frame s ++ extra = [s.length / 256, s.length % 256] ++ (s ++ extra) := by
    simp [frame]
  have hnt : ntohs [s.length / 256, s.length % 256] = s.length := by
    simp only [ntohs, List.getD_cons_zero, List.getD_cons_succ]
    omega
  simp only [List.length_cons, List.length_nil, Nat.zero_add, Nat.reduceAdd] at h2
  unfold recvStr
  rw [hfr, h2]
  simp only [hnt]
  have hc : ¬ (((2 : Nat) : Int) ≠ 2 ∨ (s.length : Int) ≥ size) := by
    simp
    exact hsize
  rw [if_neg hc]
  by_cases h0 : s.length = 0
  · have hs : s = [] := List.eq_nil_of_length_eq_zero h0
    subst hs
    simp [storeAt, List.range_succ]
  · have hse : ¬ (s ++ extra = []) := by
      intro h
      apply h0
      simp at h
      simp [h.1]
    rw [if_neg h0, if_neg hse, readAll_arrival s extra tail]
    have hq : ¬ ((s.length : Int) ≤ 0) := by omega
    simp only [if_neg hq, true_and]
    refine ⟨?_, trivial⟩
    apply List.ext_getElem
    · simp
    · intro i h1 h2
      simp only [List.getElem_map, List.getElem_range, storeAt, storeBytes]
      by_cases hi : i = s.length
      · simp [hi]
      · simp at h1
        have hlt : i < s.length := by omega
        simp [hi, hlt, List.getElem_append_left, List.getD_eq_getElem?_getD,
          List.getElem?_eq_getElem hlt]

/-- A retried read that hands over all the `len` bytes asked for ends the loop
of `readAll` at once. -/
theorem readAll_of_full_read (fd fd1 : List ReadEv) (len : Nat) (bs : List Nat)
    (h : read_retry fd len = ⟨len, bs, fd1⟩) : readAll fd len = ⟨len, bs, fd1⟩ := by
  unfold readAll
  rw [readAllFrom_loop, h]
  have hc : ¬ (0 < (len : Int) ∧ (len : Int) < (len : Int)) := by omega
  simp only [if_neg hc, List.nil_append]

/-- C6: a NUL-free byte string `s` of at most 65535 bytes that `sendStr` wrote
in full goes on the wire as its length in two bytes, high byte first, and then
its bytes; when these are the bytes `recvStr` then reads, every underlying
read handing over the bytes asked for in full, and the buffer capacity is
greater than the length, `recvStr` returns the length and the buffer holds the
bytes of `s` and then a NUL. -/
theorem sendStr_recvStr_roundtrip (s : List Nat) (hs : ∀ b ∈ s, 0 < b ∧ b < 256)
    (hn : s.length ≤ 65535) (size : Int) (hsize : (s.length : Int) < size)
    (out : List WriteEv) (hok : (sendStr out s).ret = 0)
    (fd fd1 fd2 : List ReadEv) (buf : Nat → Nat)
    (hr1 : read_retry fd 2 = ⟨2, (sendStr out s).wire.take 2, fd1⟩)
    (hr2 : 0 < s.length →
      read_retry fd1 s.length = ⟨s.length, (sendStr out s).wire.drop 2, fd2⟩) :
    (sendStr out s).wire = s.length / 256 :: s.length % 256 :: s ∧
      (recvStr fd buf size).ret = s.length ∧
      (List.range (s.length + 1)).map (recvStr fd buf size).buf = s ++ [0] := by
  have hw : (sendStr out s).wire = s.length / 256 :: s.length % 256 :: s :=
    sendStr_wire out s hs hn hok
  refine ⟨hw, ?_⟩
  rw [hw] at hr1 hr2
  simp only [List.take_succ_cons, List.take_zero, List.drop_succ_cons, List.drop_zero] at hr1 hr2
  have h2 := readAll_of_full_read fd fd1 2 _ hr1
  have hnt : ntohs [s.length / 256, s.length % 256] = s.length := by
    simp only [ntohs, List.getD_cons_zero, List.getD_cons_succ]
    omega
  unfold recvStr
  rw [h2]
  simp only [hnt]
  have hc : ¬ (((2 : Nat) : Int) ≠ 2 ∨ (s.length : Int) ≥ size) := by
    simp
    exact hsize
  rw [if_neg hc]
  by_cases h0 : s.length = 0
  · have hs0 : s = [] := List.eq_nil_of_length_eq_zero h0
    subst hs0
    simp [storeAt, List.range_succ]
  · have hq := readAll_of_full_read fd1 fd2 s.length s (hr2 (by omega))
    rw [if_neg h0, hq]
    have hq0 : ¬ ((s.length : Int) ≤ 0) := by omega
    simp only [if_neg hq0, true_and]
    apply List.ext_getElem
    · simp
    · intro i h1 h2
      simp only [List.getElem_map, List.getElem_range, storeAt, storeBytes]
      by_cases hi : i = s.length
      · simp [hi]
      · simp at h1
        have hlt : i < s.length := by omega
        simp [hi, hlt, List.getElem_append_left, List.getD_eq_getElem?_getD,
          List.getElem?_eq_getElem hlt]

/-- C6 at the string "abc", written by two full writes and read back from one
arrival into a buffer of capacity 4. -/
theorem sendStr_recvStr_roundtrip_witness :
    (sendStr [.accept 2, .accept 3] [97, 98, 99]).wire = 3 / 256 :: 3 % 256 :: [97, 98, 99] ∧
      (recvStr [.data [0, 3, 97, 98, 99]] (fun _ => 7) 4).ret = 3 ∧
      (List.range (3 + 1)).map (recvStr [.data [0, 3, 97, 98, 99]] (fun _ => 7) 4).buf
        = [97, 98, 99] ++ [0] :=
  sendStr_recvStr_roundtrip [97, 98, 99] (by decide) (by decide) 4 (by decide)
    [.accept 2, .accept 3] (by decide) [.data [0, 3, 97, 98, 99]] [.data [97, 98, 99]] []
    (fun _ => 7) (by decide) (fun _ => by decide)

/-- C7: when the first two bytes the descriptor hands over are `b0`, `b1` and
the length they give, high byte first, is not less than the capacity `size`,
`recvStr` returns -1 and the destination buffer is as it was. -/
theorem recvStr_rejects_length_ge_size (fd : List ReadEv) (buf : Nat → Nat) (size : Int)
    (b0 b1 : Nat) (hpre : (delivered fd).take 2 = [b0, b1])
    (hlen : size ≤ ((b0 % 256 * 256 + b1 % 256 : Nat) : Int)) :
    (recvStr fd buf size).ret = -1 ∧ (recvStr fd buf size).buf = buf := by
  have hb : (readAll fd 2).bytes = [b0, b1] := by
    unfold readAll
    rw [readAllFrom_bytes, hpre]
    rfl
  have hc : (readAll fd 2).r ≠ 2 ∨ ((ntohs (readAll fd 2).bytes : Nat) : Int) ≥ size := by
    right
    rw [hb]
    simpa [ntohs] using hlen
  simp only [recvStr, if_pos hc, and_self]

/-- C7 at a frame that declares 5 bytes, read into a buffer of capacity 5. -/
theorem recvStr_rejects_length_ge_size_witness :
    (recvStr [.data [0, 5, 1, 2, 3, 4, 5]] (fun _ => 7) 5).ret = -1 ∧
      (recvStr [.data [0, 5, 1, 2, 3, 4, 5]] (fun _ => 7) 5).buf = (fun _ => 7) :=
  recvStr_rejects_length_ge_size [.data [0, 5, 1, 2, 3, 4, 5]] (fun _ => 7) 5 0 5
    (by decide) (by decide)

/-! ## Properties of the device-handle request -/

/-- The conversion `%03u` of a byte value gives its three decimal digits. -/
theorem fmt03u_byte : ∀ n, n < 256 → fmt03u n = threeDigits n := by
  decide

/-- The three digits of a byte value are bytes other than NUL. -/
theorem threeDigits_bytes : ∀ n, n < 256 →
    ∀ b ∈ (threeDigits n).map Char.toNat, 0 < b ∧ b < 256 := by
  decide

/-- The formatted name of a device with byte-valued bus number and address is
its device path. -/
theorem usbfsName_eq (bus dev : Nat) (hb : bus < 256) (hd : dev < 256) :
    usbfsName bus dev = devicePath bus dev := by
  unfold usbfsName devicePath
  rw [fmt03u_byte bus hb, fmt03u_byte dev hd]
  rfl

/-- The bytes of a device path are bytes other than NUL. -/
theorem devicePath_bytes (bus dev : Nat) (hb : bus < 256) (hd : dev < 256) :
    ∀ b ∈ (devicePath bus dev).map Char.toNat, 0 < b ∧ b < 256 := by
  intro b hmem
  unfold devicePath at hmem
  rw [List.map_append, List.map_append, List.mem_append, List.mem_append] at hmem
  rcases hmem with (h | h) | h
  · revert b
    decide
  · exact threeDigits_bytes bus hb b h
  · rw [List.map_cons, List.mem_cons] at h
    rcases h with h | h
    · subst h
      decide
    · exact threeDigits_bytes dev hd b h

/-- C8: for a bus number and a device address in 0..255 the string that
`linux_android_helper_get_usbfs_fd` formats and hands to `sendStr` is
"/dev/bus/usb/", the three decimal digits of the bus number, "/", and the
three decimal digits of the address, 20 characters in all; and when the
connection is open and `sendStr` succeeds, the bytes on the wire are the
length 20 in two bytes and these 20 characters. -/
theorem get_usbfs_fd_request_format (P : Platform) (env : RpcEnv) (bus dev : Nat)
    (hb : bus < 256) (hd : dev < 256) :
    (linux_android_helper_get_usbfs_fd P env ⟨bus, dev⟩).request
        = "/dev/bus/usb/".toList ++ threeDigits bus ++ '/' :: threeDigits dev ∧
      (linux_android_helper_get_usbfs_fd P env ⟨bus, dev⟩).request.length = 20 ∧
      (0 ≤ env.socket → 0 ≤ env.connect →
        (sendStr env.out ((devicePath bus dev).map Char.toNat)).ret = 0 →
        (linux_android_helper_get_usbfs_fd P env ⟨bus, dev⟩).wire
          = 0 :: 20 :: (devicePath bus dev).map Char.toNat) := by
  have hname : usbfsName (bus % 256) (dev % 256) = devicePath bus dev := by
    rw [Nat.mod_eq_of_lt hb, Nat.mod_eq_of_lt hd]
    exact usbfsName_eq bus dev hb hd
  have hreq : (linux_android_helper_get_usbfs_fd P env ⟨bus, dev⟩).request
      = devicePath bus dev := by
    simp only [linux_android_helper_get_usbfs_fd, hname]
    split_ifs <;> rfl
  have hl : (devicePath bus dev).length = 20 := by
    simp [devicePath, threeDigits]
  refine ⟨hreq, by rw [hreq, hl], ?_⟩
  intro hs hc hok
  have hsock : ¬ (servConnOpen env.socket env.connect).1 < 0 := by
    have h1 : ¬ env.socket < 0 := by omega
    have h2 : ¬ env.connect < 0 := by omega
    simp only [servConnOpen, if_neg h1, if_neg h2]
    omega
  have hwire : (linux_android_helper_get_usbfs_fd P env ⟨bus, dev⟩).wire
      = (sendStr env.out ((devicePath bus dev).map Char.toNat)).wire := by
    simp only [linux_android_helper_get_usbfs_fd, hname, if_neg hsock]
    split_ifs <;> rfl
  rw [hwire, sendStr_wire env.out _ (devicePath_bytes bus dev hb hd) (by simp [hl]) hok]
  simp [frame, hl]

/-- C8 at bus 1, device 2, on a connection that takes the whole frame. -/
theorem get_usbfs_fd_request_format_witness :
    (linux_android_helper_get_usbfs_fd lp64
        ⟨5, 0, [.accept 2, .accept 20], ⟨1, 0, []⟩, 0⟩ ⟨1, 2⟩).request
        = "/dev/bus/usb/".toList ++ threeDigits 1 ++ '/' :: threeDigits 2 ∧
      (linux_android_helper_get_usbfs_fd lp64
        ⟨5, 0, [.accept 2, .accept 20], ⟨1, 0, []⟩, 0⟩ ⟨1, 2⟩).request.length = 20 ∧
      (0 ≤ (5 : Int) → 0 ≤ (0 : Int) →
        (sendStr [.accept 2, .accept 20] ((devicePath 1 2).map Char.toNat)).ret = 0 →
        (linux_android_helper_get_usbfs_fd lp64
          ⟨5, 0, [.accept 2, .accept 20], ⟨1, 0, []⟩, 0⟩ ⟨1, 2⟩).wire
          = 0 :: 20 :: (devicePath 1 2).map Char.toNat) :=
  get_usbfs_fd_request_format lp64 ⟨5, 0, [.accept 2, .accept 20], ⟨1, 0, []⟩, 0⟩ 1 2
    (by decide) (by decide)

/-! ## Properties of the descriptor-passing receiver -/

/-- The inner loop stores the first `n` cells of the block from `out_fd_i` on
and leaves the other cells of `fds` as they were. -/
theorem copyFds_cell (P : Platform) (data : List Int) (n i out : Nat) (fds : Nat → Int)
    (h : out + n < P.sizeMod) (j : Nat) :
    copyFds P data n i out fds j =
      if out ≤ j ∧ j < out + n then data.getD (i + (j - out)) 0 else fds j := by
  induction n generalizing i out fds with
  | zero =>
    have hc : ¬ (out ≤ j ∧ j < out + 0) := by omega
    simp only [copyFds, if_neg hc]
  | succ n ih =>
    have hm : (out + 1) % P.sizeMod = out + 1 := Nat.mod_eq_of_lt (by omega)
    rw [copyFds, hm, ih (i + 1) (out + 1) _ (by omega)]
    by_cases h1 : out + 1 ≤ j ∧ j < out + 1 + n
    · have h2 : out ≤ j ∧ j < out + (n + 1) := by omega
      have h3 : i + 1 + (j - (out + 1)) = i + (j - out) := by omega
      rw [if_pos h1, if_pos h2, h3]
    · rw [if_neg h1]
      by_cases h4 : j = out
      · have h2 : out ≤ j ∧ j < out + (n + 1) := by omega
        have h5 : i + (j - out) = i := by omega
        rw [if_pos h2, h5]
        simp [storeAt, h4]
      · have h2 : ¬ (out ≤ j ∧ j < out + (n + 1)) := by omega
        rw [if_neg h2]
        simp [storeAt, h4]

/-- For a well-formed block the count the code works out from the declared
length is the number of descriptors the block carries. -/
theorem fdcount_of_wellFormed (P : Platform) (c : Cmsg) (h : WellFormed P c) :
    P.fdcount c.cmsg_len = c.cmsg_fds.length := by
  obtain ⟨_, _, hlt, hmod, hgt, hlen⟩ := h
  have hsz : 0 < P.sizeofInt := by
    rcases Nat.eq_zero_or_pos P.sizeofInt with h0 | h0
    · rw [h0, Nat.mod_zero] at hmod
      omega
    · exact h0
  unfold Platform.fdcount
  have h1 : c.cmsg_len % P.sizeMod = c.cmsg_len := Nat.mod_eq_of_lt hlt
  have h2 : (c.cmsg_len + P.sizeMod - P.CMSG_LEN 0) % P.sizeMod
      = c.cmsg_len - P.CMSG_LEN 0 := by
    have h3 : c.cmsg_len + P.sizeMod - P.CMSG_LEN 0
        = (c.cmsg_len - P.CMSG_LEN 0) + P.sizeMod := by omega
    rw [h3, Nat.add_mod_right]
    exact Nat.mod_eq_of_lt (by omega)
  rw [h1, h2, ← hlen]
  exact Nat.mul_div_cancel _ hsz

/-- The walk over well-formed blocks that carry no more descriptors than the
capacity leaves room for: it returns `rc`, closes nothing, counts every
descriptor and stores them in order from `out_fd_i` on. -/
theorem recvFdsWalk_wellFormed (P : Platform) (K : Nat) (rc : Int) (hK : K < P.sizeMod)
    (cs : List Cmsg) (hwf : ∀ c ∈ cs, WellFormed P c) (fds : Nat → Int) (out : Nat)
    (log : List LogMsg) (hsum : out + (carried cs).length ≤ K) :
    (recvFdsWalk P K rc cs fds out log).ret = rc ∧
      (recvFdsWalk P K rc cs fds out log).fds_count = out + (carried cs).length ∧
      (recvFdsWalk P K rc cs fds out log).closed = [] ∧
      ∀ j, (recvFdsWalk P K rc cs fds out log).fds j =
        if out ≤ j ∧ j < out + (carried cs).length then (carried cs).getD (j - out) 0
        else fds j := by
  induction cs generalizing fds out log with
  | nil =>
    refine ⟨rfl, by simp [recvFdsWalk, carried], rfl, ?_⟩
    intro j
    have hc : ¬ (out ≤ j ∧ j < out + (carried []).length) := by
      simp [carried]
    rw [if_neg hc]
    rfl
  | cons c rest ih =>
    have hc := hwf c (List.mem_cons_self c rest)
    have hcnt := fdcount_of_wellFormed P c hc
    have hrest : ∀ c1 ∈ rest, WellFormed P c1 := fun c1 h1 => hwf c1 (List.mem_cons_of_mem c h1)
    have hlen : (carried (c :: rest)).length = c.cmsg_fds.length + (carried rest).length := by
      simp [carried]
    rw [hlen] at hsum
    have htag : ¬ (c.cmsg_level ≠ SOL_SOCKET ∨ c.cmsg_type ≠ SCM_RIGHTS) := by
      rw [hc.1, hc.2.1]
      simp
    have hmod : (out + c.cmsg_fds.length) % P.sizeMod = out + c.cmsg_fds.length :=
      Nat.mod_eq_of_lt (by omega)
    have hle : ¬ (out + c.cmsg_fds.length > K) := by omega
    have hstep : recvFdsWalk P K rc (c :: rest) fds out log =
        recvFdsWalk P K rc rest (copyFds P c.cmsg_fds c.cmsg_fds.length 0 out fds)
          (out + c.cmsg_fds.length) (log ++ P.lengthLog c.cmsg_len) := by
      rw [recvFdsWalk]
      simp only [if_neg htag, hcnt, if_neg hle, hmod]
    rw [hstep]
    obtain ⟨h1, h2, h3, h4⟩ := ih hrest (copyFds P c.cmsg_fds c.cmsg_fds.length 0 out fds)
      (out + c.cmsg_fds.length) (log ++ P.lengthLog c.cmsg_len) (by omega)
    refine ⟨h1, by rw [h2, hlen]; omega, h3, ?_⟩
    intro j
    rw [h4 j, hlen, copyFds_cell P _ _ _ _ _ (by omega)]
    by_cases ha : out + c.cmsg_fds.length ≤ j ∧ j < out + c.cmsg_fds.length + (carried rest).length
    · have hb : out ≤ j ∧ j < out + (c.cmsg_fds.length + (carried rest).length) := by omega
      rw [if_pos ha, if_pos hb]
      simp only [carried, List.getD_eq_getElem?_getD]
      rw [List.getElem?_append_right (by omega)]
      congr 2
      omega
    · rw [if_neg ha]
      by_cases hd : out ≤ j ∧ j < out + c.cmsg_fds.length
      · have hb : out ≤ j ∧ j < out + (c.cmsg_fds.length + (carried rest).length) := by omega
        rw [if_pos hd, if_pos hb]
        simp only [carried, List.getD_eq_getElem?_getD, Nat.zero_add]
        rw [List.getElem?_append_left (by omega)]
      · have hb : ¬ (out ≤ j ∧ j < out + (c.cmsg_fds.length + (carried rest).length)) := by
          omega
        rw [if_neg hd, if_neg hb]

/-- Whatever the blocks are, a walk that starts within the capacity and does
not return -1 reports a count within the capacity. -/
theorem recvFdsWalk_count_le (P : Platform) (K : Nat) (rc : Int) (cs : List Cmsg)
    (fds : Nat → Int) (out : Nat) (log : List LogMsg) (hout : out ≤ K)
    (hret : (recvFdsWalk P K rc cs fds out log).ret ≠ -1) :
    (recvFdsWalk P K rc cs fds out log).fds_count ≤ K := by
  induction cs generalizing fds out log with
  | nil => exact hout
  | cons c rest ih =>
    rw [recvFdsWalk] at hret ⊢
    by_cases htag : c.cmsg_level ≠ SOL_SOCKET ∨ c.cmsg_type ≠ SCM_RIGHTS
    · simp [if_pos htag] at hret
    · simp only [if_neg htag] at hret ⊢
      by_cases hgt : (out + P.fdcount c.cmsg_len) % P.sizeMod > K
      · simp [if_pos hgt] at hret
      · simp only [if_neg hgt] at hret ⊢
        exact ih _ _ _ (by omega) hret

/-- C5: for a capacity `K` that passes the page-size check and a received,
untruncated message whose ancillary blocks are all well-formed
`SOL_SOCKET` / `SCM_RIGHTS` blocks carrying no more than `K` descriptors in
all, `recvFds` returns the byte count of the receive call, sets `*fds_count`
to the number of descriptors carried, stores them in `fds` from index 0 on in
the order of the blocks, and closes none; and on every return other than -1,
whatever the message, the reported count is at most `K`. -/
theorem recvFds_wellFormed_succeeds (P : Platform) (K : Nat) (hK : K < P.sizeMod)
    (hpage : P.CMSG_SPACE ((P.sizeofInt * K) % P.sizeMod) < P.pageSize)
    (m : Msg) (hrc : m.rc ≠ -1) (htr : m.msg_flags &&& MSG_TRUNC = 0)
    (hct : m.msg_flags &&& MSG_CTRUNC = 0) (hwf : ∀ c ∈ m.control, WellFormed P c)
    (hJ : (carried m.control).length ≤ K) (fds : Nat → Int) :
    (recvFds P m fds K).ret = m.rc ∧
      (recvFds P m fds K).fds_count = (carried m.control).length ∧
      (List.range (carried m.control).length).map (recvFds P m fds K).fds
        = carried m.control ∧
      (recvFds P m fds K).closed = [] ∧
      ∀ (m1 : Msg) (fds1 : Nat → Int),
        (recvFds P m1 fds1 K).ret ≠ -1 → (recvFds P m1 fds1 K).fds_count ≤ K := by
  have hp : ¬ (P.CMSG_SPACE ((P.sizeofInt * K) % P.sizeMod) ≥ P.pageSize) := by omega
  have hwalk : recvFds P m fds K = recvFdsWalk P K m.rc m.control fds 0 [] := by
    simp [recvFds, hp, hrc, htr, hct]
  obtain ⟨h1, h2, h3, h4⟩ :=
    recvFdsWalk_wellFormed P K m.rc hK m.control hwf fds 0 [] (by omega)
  rw [hwalk]
  refine ⟨h1, by rw [h2]; omega, ?_, h3, ?_⟩
  · apply List.ext_getElem
    · simp
    · intro j hj1 hj2
      have hc : 0 ≤ j ∧ j < 0 + (carried m.control).length := by omega
      simp only [List.getElem_map, List.getElem_range]
      rw [h4 j, if_pos hc, List.getD_eq_getElem?_getD, Nat.sub_zero,
        List.getElem?_eq_getElem hj2]
      rfl
  · intro m1 fds1 hret
    unfold recvFds at hret ⊢
    simp only [if_neg hp] at hret ⊢
    by_cases hr : m1.rc = -1
    · simp [hr] at hret
    · simp only [if_neg hr] at hret ⊢
      by_cases ht : m1.msg_flags &&& MSG_TRUNC ≠ 0
      · simp [if_pos ht] at hret
      · simp only [if_neg ht] at hret ⊢
        by_cases hc : m1.msg_flags &&& MSG_CTRUNC ≠ 0
        · simp [if_pos hc] at hret
        · simp only [if_neg hc] at hret ⊢
          exact recvFdsWalk_count_le P K m1.rc m1.control fds1 0 [] (by omega) hret

/-- C5 on 64-bit Linux at capacity 2 and a message of one byte with one block
that carries the descriptors 7 and 8. -/
theorem recvFds_wellFormed_succeeds_witness :
    (recvFds lp64 ⟨1, 0, [⟨24, 1, 1, [7, 8]⟩]⟩ (fun _ => 0) 2).ret = 1 ∧
      (recvFds lp64 ⟨1, 0, [⟨24, 1, 1, [7, 8]⟩]⟩ (fun _ => 0) 2).fds_count = 2 ∧
      (List.range 2).map (recvFds lp64 ⟨1, 0, [⟨24, 1, 1, [7, 8]⟩]⟩ (fun _ => 0) 2).fds
        = [7, 8] ∧
      (recvFds lp64 ⟨1, 0, [⟨24, 1, 1, [7, 8]⟩]⟩ (fun _ => 0) 2).closed = [] ∧
      ∀ (m1 : Msg) (fds1 : Nat → Int),
        (recvFds lp64 m1 fds1 2).ret ≠ -1 → (recvFds lp64 m1 fds1 2).fds_count ≤ 2 :=
  recvFds_wellFormed_succeeds lp64 2 (by decide) (by decide) ⟨1, 0, [⟨24, 1, 1, [7, 8]⟩]⟩
    (by decide) (by decide) (by decide) (by decide) (by decide) (fun _ => 0)

/-- C1, on 64-bit Linux.  At capacity 1 the ancillary buffer of
`CMSG_SPACE(sizeof(int))` = 24 bytes holds a block of `CMSG_LEN(2 * sizeof(int))`
= 24 bytes, so a message of one well-formed block with the two descriptors 7
and 8 arrives untruncated: `recvFds` returns -1 with `EMSGSIZE` and closes
nothing, so 7 and 8 stay open.  The same at capacity 3 (a buffer of 32 bytes)
and one block with the four descriptors 6, 7, 8, 9.  When the walk meets two
blocks carrying 9 and then 7 and 8 at capacity 2, it returns -1 and closes
only 9, the descriptor of the earlier block. -/
theorem recvFds_too_many_leaves_descriptors_open :
    lp64.CMSG_SPACE (lp64.sizeofInt * 1) = 24 ∧ lp64.CMSG_LEN (lp64.sizeofInt * 2) = 24 ∧
      WellFormed lp64 ⟨24, SOL_SOCKET, SCM_RIGHTS, [7, 8]⟩ ∧
      (recvFds lp64 ⟨1, 0, [⟨24, SOL_SOCKET, SCM_RIGHTS, [7, 8]⟩]⟩ (fun _ => 0) 1).ret = -1 ∧
      (recvFds lp64 ⟨1, 0, [⟨24, SOL_SOCKET, SCM_RIGHTS, [7, 8]⟩]⟩ (fun _ => 0) 1).errno
        = some EMSGSIZE ∧
      (recvFds lp64 ⟨1, 0, [⟨24, SOL_SOCKET, SCM_RIGHTS, [7, 8]⟩]⟩ (fun _ => 0) 1).closed = [] ∧
      lp64.CMSG_SPACE (lp64.sizeofInt * 3) = 32 ∧ lp64.CMSG_LEN (lp64.sizeofInt * 4) = 32 ∧
      (recvFds lp64 ⟨1, 0, [⟨32, SOL_SOCKET, SCM_RIGHTS, [6, 7, 8, 9]⟩]⟩ (fun _ => 0) 3).ret
        = -1 ∧
      (recvFds lp64 ⟨1, 0, [⟨32, SOL_SOCKET, SCM_RIGHTS, [6, 7, 8, 9]⟩]⟩ (fun _ => 0) 3).closed
        = [] ∧
      (recvFds lp64 ⟨1, 0, [⟨20, SOL_SOCKET, SCM_RIGHTS, [9]⟩,
        ⟨24, SOL_SOCKET, SCM_RIGHTS, [7, 8]⟩]⟩ (fun _ => 0) 2).ret = -1 ∧
      (recvFds lp64 ⟨1, 0, [⟨20, SOL_SOCKET, SCM_RIGHTS, [9]⟩,
        ⟨24, SOL_SOCKET, SCM_RIGHTS, [7, 8]⟩]⟩ (fun _ => 0) 2).closed = [9] := by
  decide

/-- C2, on 64-bit Linux at capacity 1 and a message of one byte.  A
`SOL_SOCKET` / `SCM_RIGHTS` block of declared length 16 = `CMSG_LEN(0)` is
logged as not long enough and `recvFds` returns 1 with a count of 0; a block
of declared length 22, not a multiple of `sizeof(int)`, is logged as not
aligned and `recvFds` returns 1 with a count of 1 and the descriptor 7 in
`fds[0]`. -/
theorem recvFds_malformed_length_succeeds :
    lp64.CMSG_LEN 0 = 16 ∧
      (recvFds lp64 ⟨1, 0, [⟨16, SOL_SOCKET, SCM_RIGHTS, []⟩]⟩ (fun _ => 0) 1).ret = 1 ∧
      (recvFds lp64 ⟨1, 0, [⟨16, SOL_SOCKET, SCM_RIGHTS, []⟩]⟩ (fun _ => 0) 1).fds_count = 0 ∧
      (recvFds lp64 ⟨1, 0, [⟨16, SOL_SOCKET, SCM_RIGHTS, []⟩]⟩ (fun _ => 0) 1).log
        = [.notLongEnough] ∧
      (recvFds lp64 ⟨1, 0, [⟨22, SOL_SOCKET, SCM_RIGHTS, [7]⟩]⟩ (fun _ => 0) 1).ret = 1 ∧
      (recvFds lp64 ⟨1, 0, [⟨22, SOL_SOCKET, SCM_RIGHTS, [7]⟩]⟩ (fun _ => 0) 1).fds_count = 1 ∧
      (recvFds lp64 ⟨1, 0, [⟨22, SOL_SOCKET, SCM_RIGHTS, [7]⟩]⟩ (fun _ => 0) 1).fds 0 = 7 ∧
      (recvFds lp64 ⟨1, 0, [⟨22, SOL_SOCKET, SCM_RIGHTS, [7]⟩]⟩ (fun _ => 0) 1).log
        = [.notAligned] := by
  decide

/-- C4, with the connection open on descriptor 5.  When the reply carries one
byte and no descriptor, when the frame cannot be sent, when the receive
fails, and when the receive returns no in-band byte,
`linux_android_helper_get_usbfs_fd` returns the I/O error code and has closed
nothing, so descriptor 5 stays open; on the path that succeeds (one
descriptor, 9, received) it closes descriptor 5. -/
theorem get_usbfs_fd_failure_leaves_connection_open :
    (linux_android_helper_get_usbfs_fd lp64
        ⟨5, 0, [.accept 2, .accept 20], ⟨1, 0, []⟩, 0⟩ ⟨1, 2⟩).ret = LIBUSB_ERROR_IO ∧
      (linux_android_helper_get_usbfs_fd lp64
        ⟨5, 0, [.accept 2, .accept 20], ⟨1, 0, []⟩, 0⟩ ⟨1, 2⟩).closed = [] ∧
      (linux_android_helper_get_usbfs_fd lp64
        ⟨5, 0, [.accept 2, .error 32], ⟨1, 0, []⟩, 0⟩ ⟨1, 2⟩).ret = LIBUSB_ERROR_IO ∧
      (linux_android_helper_get_usbfs_fd lp64
        ⟨5, 0, [.accept 2, .error 32], ⟨1, 0, []⟩, 0⟩ ⟨1, 2⟩).closed = [] ∧
      (linux_android_helper_get_usbfs_fd lp64
        ⟨5, 0, [.accept 2, .accept 20], ⟨-1, 0, []⟩, 0⟩ ⟨1, 2⟩).ret = LIBUSB_ERROR_IO ∧
      (linux_android_helper_get_usbfs_fd lp64
        ⟨5, 0, [.accept 2, .accept 20], ⟨-1, 0, []⟩, 0⟩ ⟨1, 2⟩).closed = [] ∧
      (linux_android_helper_get_usbfs_fd lp64
        ⟨5, 0, [.accept 2, .accept 20], ⟨0, 0, [⟨20, SOL_SOCKET, SCM_RIGHTS, [9]⟩]⟩, 0⟩
        ⟨1, 2⟩).ret = LIBUSB_ERROR_IO ∧
      (linux_android_helper_get_usbfs_fd lp64
        ⟨5, 0, [.accept 2, .accept 20], ⟨0, 0, [⟨20, SOL_SOCKET, SCM_RIGHTS, [9]⟩]⟩, 0⟩
        ⟨1, 2⟩).closed = [] ∧
      (linux_android_helper_get_usbfs_fd lp64
        ⟨5, 0, [.accept 2, .accept 20], ⟨1, 0, [⟨20, SOL_SOCKET, SCM_RIGHTS, [9]⟩]⟩, 0⟩
        ⟨1, 2⟩).ret = 9 ∧
      (linux_android_helper_get_usbfs_fd lp64
        ⟨5, 0, [.accept 2, .accept 20], ⟨1, 0, [⟨20, SOL_SOCKET, SCM_RIGHTS, [9]⟩]⟩, 0⟩
        ⟨1, 2⟩).closed = [5] := by
  decide

/-! ## Properties of the event monitor -/

/-- C9 as stated fails.  With the control pipe reporting only hang-up (its
`POLLIN` bit clear) and the event connection readable, the thread reads and
dispatches an event and goes on to the next `poll`; with the control pipe
reporting `POLLIN` and the event connection reporting nothing, it exits
without reading. -/
theorem event_thread_main_tests_event_connection :
    POLLHUP &&& POLLIN = 0 ∧
      event_thread_main [⟨1, POLLHUP, POLLIN⟩] [.data [1, 0, 2, 97, 98]] ⟨0, fun _ => 0⟩
        = ⟨.blockedInPoll, 1, [⟨[97, 98], true, false⟩], []⟩ ∧
      POLLIN &&& POLLIN ≠ 0 ∧
      event_thread_main [⟨1, POLLIN, 0⟩] [.data [1, 0, 2, 97, 98]] ⟨0, fun _ => 0⟩
        = ⟨.monitorExit, 0, [], [.data [1, 0, 2, 97, 98]]⟩ := by
  decide

/-- C9, amended: on a wake of the wait (`poll` returned a positive count) the
thread exits the loop without reading or dispatching exactly when the event
connection reports no readiness at all (`pfds[1].revents == 0`), whatever the
control pipe reports; otherwise it calls `getNewDevEvent`, and ends with a
protocol error when that call fails. -/
theorem event_thread_main_wake (p : PollRet) (polls : List PollRet) (fd : List ReadEv)
    (new_dev : new_dev_evt_t) (hp : 0 < p.r) :
    (event_thread_main (p :: polls) fd new_dev = ⟨.monitorExit, 0, [], fd⟩ ↔ p.revents1 = 0) ∧
      (p.revents1 ≠ 0 → 1 ≤ (event_thread_main (p :: polls) fd new_dev).reads) ∧
      (p.revents1 ≠ 0 → (getNewDevEvent fd new_dev).ret < 0 →
        event_thread_main (p :: polls) fd new_dev
          = ⟨.protocolError, 1, [], (getNewDevEvent fd new_dev).fd⟩) := by
  have hp1 : p.r > 0 := hp
  have hreads : p.revents1 ≠ 0 → 1 ≤ (event_thread_main (p :: polls) fd new_dev).reads := by
    intro h
    rw [event_thread_main]
    simp only [if_pos hp1, if_neg h]
    split_ifs <;> simp
  refine ⟨⟨?_, ?_⟩, hreads, ?_⟩
  · intro h
    by_contra hne
    have := hreads hne
    rw [h] at this
    simp at this
  · intro h
    rw [event_thread_main]
    simp only [if_pos hp1, if_pos h]
  · intro h hr
    rw [event_thread_main]
    simp only [if_pos hp1, if_neg h, if_pos hr]

/-- C9, amended, at a wake where the control pipe reports hang-up and the
event connection reports nothing. -/
theorem event_thread_main_wake_witness :
    (event_thread_main (⟨1, POLLHUP, 0⟩ :: []) [.data [1, 0, 2, 97, 98]] ⟨0, fun _ => 0⟩
        = ⟨.monitorExit, 0, [], [.data [1, 0, 2, 97, 98]]⟩ ↔ (⟨1, POLLHUP, 0⟩ : PollRet).revents1 = 0) ∧
      ((⟨1, POLLHUP, 0⟩ : PollRet).revents1 ≠ 0 →
        1 ≤ (event_thread_main (⟨1, POLLHUP, 0⟩ :: []) [.data [1, 0, 2, 97, 98]]
          ⟨0, fun _ => 0⟩).reads) ∧
      ((⟨1, POLLHUP, 0⟩ : PollRet).revents1 ≠ 0 →
        (getNewDevEvent [.data [1, 0, 2, 97, 98]] ⟨0, fun _ => 0⟩).ret < 0 →
        event_thread_main (⟨1, POLLHUP, 0⟩ :: []) [.data [1, 0, 2, 97, 98]] ⟨0, fun _ => 0⟩
          = ⟨.protocolError, 1, [],
            (getNewDevEvent [.data [1, 0, 2, 97, 98]] ⟨0, fun _ => 0⟩).fd⟩) :=
  event_thread_main_wake ⟨1, POLLHUP, 0⟩ [] [.data [1, 0, 2, 97, 98]] ⟨0, fun _ => 0⟩
    (by decide)

/-- A call of `readAll` never puts anything on the descriptor, and takes
something off it when it returns a positive count. -/
theorem readAllFrom_fdSize (fd : List ReadEv) (len : Nat) (acc : List Nat) :
    fdSize (readAllFrom fd len acc).fd ≤ fdSize fd ∧
      (0 < (readAllFrom fd len acc).r → fdSize (readAllFrom fd len acc).fd < fdSize fd) := by
  induction fd generalizing len acc with
  | nil => simp [readAllFrom, fdSize]
  | cons ev rest ih =>
    cases ev with
    | error e =>
      by_cases he : e = EINTR
      · simp only [readAllFrom, if_pos he, fdSize]
        have := (ih len acc).1
        constructor
        · omega
        · intro _
          omega
      · simp only [readAllFrom, if_neg he, fdSize]
        constructor
        · omega
        · intro _
          omega
    | data bs =>
      by_cases h1 : 0 < bs.length ∧ bs.length < len
      · simp only [readAllFrom, if_pos h1, fdSize]
        have := (ih (len - bs.length) (acc ++ bs)).1
        constructor
        · omega
        · intro _
          omega
      · by_cases h2 : bs.length ≤ len
        · simp only [readAllFrom, if_neg h1, if_pos h2, fdSize]
          constructor
          · omega
          · intro _
            omega
        · simp only [readAllFrom, if_neg h1, if_neg h2, fdSize, List.length_drop]
          constructor
          · omega
          · intro h
            have : 0 < len := by exact_mod_cast h
            omega

/-- The values `recvStr` returns: -1, 0 or a positive length. -/
theorem recvStr_ret (fd : List ReadEv) (buf : Nat → Nat) (size : Int) :
    (recvStr fd buf size).ret = -1 ∨ (recvStr fd buf size).ret = 0 ∨
      0 < (recvStr fd buf size).ret := by
  unfold recvStr
  simp only
  split_ifs with h1 h2 h3
  · left
    rfl
  · right
    left
    rfl
  · left
    rfl
  · right
    right
    show (0 : Int) < ((ntohs (readAll fd 2).bytes : Nat) : Int)
    omega

/-- A call of `recvStr` that returns a positive length has taken something off
the descriptor. -/
theorem recvStr_fdSize (fd : List ReadEv) (buf : Nat → Nat) (size : Int)
    (h : 0 < (recvStr fd buf size).ret) : fdSize (recvStr fd buf size).fd < fdSize fd := by
  unfold recvStr at h ⊢
  simp only at h ⊢
  split_ifs at h ⊢ with h1 h2 h3
  · simp at h
  · simp at h
  · simp at h
  · have hr : (readAll fd 2).r = 2 := by
      by_contra hne
      exact h1 (Or.inl hne)
    have hp := (readAllFrom_fdSize fd 2 []).2 (by
      have : (readAllFrom fd 2 []).r = 2 := hr
      omega)
    have hq := (readAllFrom_fdSize (readAll fd 2).fd (ntohs (readAll fd 2).bytes) []).1
    show fdSize (readAll (readAll fd 2).fd (ntohs (readAll fd 2).bytes)).fd < fdSize fd
    exact lt_of_le_of_lt hq hp

/-- The bound on the turns does not matter once it is above the size of the
script. -/
theorem getDevListLoop_fuel (f1 f2 : Nat) (fd : List ReadEv) (buf : Nat → Nat)
    (evs : List DevEvent) (h1 : fdSize fd < f1) (h2 : fdSize fd < f2) :
    getDevListLoop f1 fd buf evs = getDevListLoop f2 fd buf evs := by
  induction f1 generalizing f2 fd buf evs with
  | zero => omega
  | succ n ih =>
    cases f2 with
    | zero => omega
    | succ m =>
      rw [getDevListLoop, getDevListLoop]
      by_cases hr : (recvStr fd buf PATH_MAX).ret > 0
      · have hs := recvStr_fdSize fd buf PATH_MAX hr
        rw [if_pos hr, if_pos hr]
        exact ih m _ _ _ (by omega) (by omega)
      · rw [if_neg hr, if_neg hr]

/-- The definition of `getDevList` is the loop of the source: one call of
`recvStr`, then either the dispatch of the name and another turn, or the
return of `r`. -/
theorem getDevListLoop_step (fd : List ReadEv) (buf : Nat → Nat) (evs : List DevEvent) :
    getDevListLoop (fdSize fd + 1) fd buf evs =
      if (recvStr fd buf PATH_MAX).ret > 0 then
        getDevListLoop (fdSize (recvStr fd buf PATH_MAX).fd + 1) (recvStr fd buf PATH_MAX).fd
          (recvStr fd buf PATH_MAX).buf
          (evs ++ [on_dev_event (recvStr fd buf PATH_MAX).buf false true])
      else ⟨(recvStr fd buf PATH_MAX).ret, evs, (recvStr fd buf PATH_MAX).buf,
        (recvStr fd buf PATH_MAX).fd⟩ := by
  rw [getDevListLoop]
  by_cases hr : (recvStr fd buf PATH_MAX).ret > 0
  · have hs := recvStr_fdSize fd buf PATH_MAX hr
    rw [if_pos hr, if_pos hr]
    exact getDevListLoop_fuel _ _ _ _ _ (by omega) (by omega)
  · rw [if_neg hr, if_neg hr]

/-- The function `getDevList` returns 0 or -1. -/
theorem getDevListLoop_ret (fuel : Nat) (fd : List ReadEv) (buf : Nat → Nat)
    (evs : List DevEvent) :
    (getDevListLoop fuel fd buf evs).ret = 0 ∨ (getDevListLoop fuel fd buf evs).ret = -1 := by
  induction fuel generalizing fd buf evs with
  | zero =>
    right
    rfl
  | succ n ih =>
    rw [getDevListLoop]
    by_cases hr : (recvStr fd buf PATH_MAX).ret > 0
    · rw [if_pos hr]
      exact ih _ _ _
    · rw [if_neg hr]
      rcases recvStr_ret fd buf PATH_MAX with h | h | h
      · right
        exact h
      · left
        exact h
      · exact absurd h hr

/-- The value `readAll` returns is never more than the length asked for. -/
theorem readAllFrom_r_le (fd : List ReadEv) (len : Nat) (acc : List Nat) :
    (readAllFrom fd len acc).r ≤ (len : Int) := by
  induction fd generalizing len acc with
  | nil =>
    simp only [readAllFrom]
    omega
  | cons ev rest ih =>
    cases ev with
    | error e =>
      by_cases he : e = EINTR
      · simp only [readAllFrom, if_pos he]
        exact ih len acc
      · simp only [readAllFrom, if_neg he]
        omega
    | data bs =>
      by_cases h1 : 0 < bs.length ∧ bs.length < len
      · simp only [readAllFrom, if_pos h1]
        have := ih (len - bs.length) (acc ++ bs)
        omega
      · by_cases h2 : bs.length ≤ len
        · simp only [readAllFrom, if_neg h1, if_pos h2]
          omega
        · simp only [readAllFrom, if_neg h1, if_neg h2]
          omega

/-- The two length bytes that come in one read are what `readAll` reads for a
length of 2, and it returns 2. -/
theorem readAll_header (fd : List ReadEv) (hi lo : Nat) (fd1 : List ReadEv)
    (h : Header fd hi lo fd1) : readAll fd 2 = ⟨2, [hi, lo], fd1⟩ := by
  induction h with
  | eintr rest hi lo fd1 _ ih =>
    unfold readAll at ih ⊢
    rw [readAllFrom, if_pos rfl]
    exact ih
  | whole hi lo rest => simp [readAll, readAllFrom]
  | part hi lo extra rest he =>
    have hl : 0 < extra.length := List.length_pos.mpr he
    have h1 : ¬ (0 < (hi :: lo :: extra).length ∧ (hi :: lo :: extra).length < 2) := by
      simp only [List.length_cons]
      omega
    have h2 : ¬ ((hi :: lo :: extra).length ≤ 2) := by
      simp only [List.length_cons]
      omega
    simp only [readAll, readAllFrom, if_neg h1, if_neg h2]
    simp

/-- The bytes a descriptor delivers are at least one. -/
theorem Delivers_length_pos (fd : List ReadEv) (bs : List Nat) (fd1 : List ReadEv)
    (h : Delivers fd bs fd1) : 0 < bs.length := by
  induction h with
  | eintr rest bs fd1 _ ih => exact ih
  | whole bs rest hb => exact List.length_pos.mpr hb
  | part bs extra rest hb _ => exact List.length_pos.mpr hb
  | more a rest bs fd1 ha _ _ =>
    have := List.length_pos.mpr ha
    simp only [List.length_append]
    omega

/-- The bytes a descriptor delivers, in however many reads, are what `readAll`
reads for their length, and it returns a positive value. -/
theorem readAllFrom_delivers (fd : List ReadEv) (bs : List Nat) (fd1 : List ReadEv)
    (h : Delivers fd bs fd1) : ∀ acc : List Nat,
    0 < (readAllFrom fd bs.length acc).r ∧ (readAllFrom fd bs.length acc).bytes = acc ++ bs ∧
      (readAllFrom fd bs.length acc).fd = fd1 := by
  induction h with
  | eintr rest bs fd1 _ ih =>
    intro acc
    rw [readAllFrom, if_pos rfl]
    exact ih acc
  | whole bs rest hb =>
    intro acc
    have hl : 0 < bs.length := List.length_pos.mpr hb
    have h1 : ¬ (0 < bs.length ∧ bs.length < bs.length) := by omega
    simp only [readAllFrom, if_neg h1, if_pos (Nat.le_refl _), and_self, and_true]
    omega
  | part bs extra rest hb he =>
    intro acc
    have hl : 0 < bs.length := List.length_pos.mpr hb
    have hx : 0 < extra.length := List.length_pos.mpr he
    have h1 : ¬ (0 < (bs ++ extra).length ∧ (bs ++ extra).length < bs.length) := by
      simp only [List.length_append]
      omega
    have h2 : ¬ ((bs ++ extra).length ≤ bs.length) := by
      simp only [List.length_append]
      omega
    simp only [readAllFrom, if_neg h1, if_neg h2, List.take_left', List.drop_left', and_self,
      and_true]
    omega
  | more a rest bs fd1 ha hd ih =>
    intro acc
    have hl : 0 < a.length := List.length_pos.mpr ha
    have hb := Delivers_length_pos rest bs fd1 hd
    have h1 : 0 < a.length ∧ a.length < (a ++ bs).length := by
      simp only [List.length_append]
      omega
    have h2 : (a ++ bs).length - a.length = bs.length := by
      simp only [List.length_append]
      omega
    rw [readAllFrom, if_pos h1, h2]
    obtain ⟨i1, i2, i3⟩ := ih (acc ++ a)
    exact ⟨i1, by rw [i2, List.append_assoc], i3⟩

/-- On a descriptor that comes to end of file or a read failure before `n`
bytes, `readAll` returns 0 or less. -/
theorem readAllFrom_cutShort (fd : List ReadEv) (n : Nat) (e : BacklogEnd)
    (h : CutShort fd n e) : ∀ acc : List Nat, (readAllFrom fd n acc).r ≤ 0 := by
  induction h with
  | used n =>
    intro acc
    simp [readAllFrom]
  | eof rest n =>
    intro acc
    simp [readAllFrom]
  | error errno rest n hne =>
    intro acc
    simp [readAllFrom, hne]
  | eintr rest n e _ ih =>
    intro acc
    rw [readAllFrom, if_pos rfl]
    exact ih acc
  | more a rest n e ha hlt _ ih =>
    intro acc
    have hl : 0 < a.length := List.length_pos.mpr ha
    rw [readAllFrom, if_pos ⟨hl, hlt⟩]
    exact ih (acc ++ a)

/-- A payload that is cut short ends the backlog with end of file or a read
failure. -/
theorem CutShort_ne_emptyFrame (fd : List ReadEv) (n : Nat) (e : BacklogEnd)
    (h : CutShort fd n e) : e ≠ .emptyFrame := by
  induction h with
  | used n => decide
  | eof rest n => decide
  | error errno rest n _ => decide
  | eintr rest n e _ ih => exact ih
  | more a rest n e _ _ _ ih => exact ih

/-- An interrupted read before a frame changes nothing for `recvStr`. -/
theorem recvStr_eintr (rest : List ReadEv) (buf : Nat → Nat) (size : Int) :
    recvStr (.error EINTR :: rest) buf size = recvStr rest buf size := by
  have h : readAll (.error EINTR :: rest) 2 = readAll rest 2 := by
    unfold readAll
    rw [readAllFrom, if_pos rfl]
  unfold recvStr
  rw [h]

/-- When the read of the length does not return 2, `recvStr` returns -1. -/
theorem recvStr_of_short_length (fd : List ReadEv) (buf : Nat → Nat) (size : Int)
    (h : (readAll fd 2).r ≠ 2) : (recvStr fd buf size).ret = -1 := by
  unfold recvStr
  simp only
  rw [if_pos (Or.inl h)]

/-- The length `recvStr` decodes from the two length bytes. -/
theorem ntohs_pair (hi lo : Nat) : ntohs [hi, lo] = wireLength hi lo := by
  simp [ntohs, wireLength]

/-- The call of `recvStr` that meets the ending of the backlog returns 0 on a
frame of length zero and -1 on every other ending. -/
theorem recvStr_ends (fd : List ReadEv) (e : BacklogEnd) (h : Ends fd e) :
    ∀ buf : Nat → Nat,
      (recvStr fd buf PATH_MAX).ret = if e = .emptyFrame then 0 else -1 := by
  induction h with
  | eintr rest e _ ih =>
    intro buf
    rw [recvStr_eintr]
    exact ih buf
  | used =>
    intro buf
    simp [recvStr, readAll, readAllFrom]
  | eof rest =>
    intro buf
    simp [recvStr, readAll, readAllFrom]
  | error errno rest hne =>
    intro buf
    simp [recvStr, readAll, readAllFrom, hne]
  | split b rest =>
    intro buf
    have hr : (readAll (.data [b] :: rest) 2).r ≠ 2 := by
      have h1 : (0 < [b].length ∧ [b].length < 2) := by simp
      unfold readAll
      rw [readAllFrom, if_pos h1]
      have hle := readAllFrom_r_le rest (2 - [b].length) ([] ++ [b])
      have h21 : ((2 - [b].length : Nat) : Int) = 1 := by simp
      rw [h21] at hle
      intro h2
      rw [h2] at hle
      omega
    rw [recvStr_of_short_length _ _ _ hr]
    simp
  | empty fd hi lo fd1 hh hz =>
    intro buf
    have hp := readAll_header fd hi lo fd1 hh
    unfold recvStr
    rw [hp]
    simp only [ntohs_pair, hz]
    have hc : ¬ ((2 : Int) ≠ 2 ∨ ((0 : Nat) : Int) ≥ ((PATH_MAX : Nat) : Int)) := by
      decide
    rw [if_neg hc]
    simp
  | long fd hi lo fd1 hh hl =>
    intro buf
    have hp := readAll_header fd hi lo fd1 hh
    unfold recvStr
    rw [hp]
    simp only [ntohs_pair]
    have hc : (2 : Int) ≠ 2 ∨ ((wireLength hi lo : Nat) : Int) ≥ ((PATH_MAX : Nat) : Int) := by
      right
      exact_mod_cast hl
    rw [if_pos hc]
    simp
  | cut fd hi lo fd1 e hh h0 hmax hcut =>
    intro buf
    have hp := readAll_header fd hi lo fd1 hh
    have hq : (readAll fd1 (wireLength hi lo)).r ≤ 0 :=
      readAllFrom_cutShort fd1 (wireLength hi lo) e hcut []
    have hne := CutShort_ne_emptyFrame fd1 (wireLength hi lo) e hcut
    unfold recvStr
    rw [hp]
    simp only [ntohs_pair]
    have hc : ¬ ((2 : Int) ≠ 2 ∨ ((wireLength hi lo : Nat) : Int) ≥ ((PATH_MAX : Nat) : Int)) := by
      intro h
      rcases h with h | h
      · exact h rfl
      · have : PATH_MAX ≤ wireLength hi lo := by exact_mod_cast h
        omega
    have hz : ¬ (wireLength hi lo = 0) := by omega
    rw [if_neg hc, if_neg hz, if_pos hq, if_neg hne]

/-- The C string read from an array that holds the bytes `l` from index `i`
on and then a NUL is the name of `l`. -/
theorem cstr_of_cells (buf : Nat → Nat) (l : List Nat) (n i : Nat)
    (hcells : ∀ k, k < l.length → buf (i + k) = l.getD k 0)
    (hend : buf (i + l.length) = 0) (hn : l.length < n) :
    cstr buf n i = cName l := by
  induction l generalizing n i with
  | nil =>
    cases n with
    | zero => simp at hn
    | succ m =>
      have h0 : buf i = 0 := by simpa using hend
      simp [cstr, cName, h0]
  | cons b l ih =>
    cases n with
    | zero => simp at hn
    | succ m =>
      have hb : buf i = b := by simpa using hcells 0 (by simp)
      by_cases hmod : b % 256 = 0
      · rw [cstr, hb, if_pos hmod]
        simp [cName, List.takeWhile_cons, hmod]
      · rw [cstr, hb, if_neg hmod]
        have hc : cName (b :: l) = b :: cName l := by
          simp [cName, List.takeWhile_cons, hmod]
        rw [hc]
        congr 1
        apply ih m (i + 1)
        · intro k hk
          have := hcells (k + 1) (by simp; omega)
          rw [List.getD_cons_succ] at this
          rw [← this]
          congr 1
          omega
        · rw [← hend]
          congr 1
          simp
          omega
        · simp at hn
          omega

/-- One turn of the backlog drain on a device name, in whatever arrivals its
frame comes: `recvStr` returns a positive length, `on_dev_event` gets the
name as an attach that is not a live event, and the frame is off the
descriptor. -/
theorem recvStr_name (fd : List ReadEv) (hi lo : Nat) (fd1 : List ReadEv) (s : List Nat)
    (fd2 : List ReadEv) (buf : Nat → Nat) (hh : Header fd hi lo fd1)
    (hlen : wireLength hi lo = s.length) (hmax : s.length < PATH_MAX)
    (hd : Delivers fd1 s fd2) :
    0 < (recvStr fd buf PATH_MAX).ret ∧
      on_dev_event (recvStr fd buf PATH_MAX).buf false true = ⟨cName s, false, true⟩ ∧
      (recvStr fd buf PATH_MAX).fd = fd2 := by
  have hp := readAll_header fd hi lo fd1 hh
  have h0 := Delivers_length_pos fd1 s fd2 hd
  obtain ⟨q1, q2, q3⟩ := readAllFrom_delivers fd1 s fd2 hd []
  rw [List.nil_append] at q2
  have hval : recvStr fd buf PATH_MAX
      = ⟨(s.length : Int), storeAt (storeBytes buf s) s.length 0, fd2⟩ := by
    unfold recvStr
    rw [hp]
    simp only [ntohs_pair, hlen]
    have hc : ¬ ((2 : Int) ≠ 2 ∨ ((s.length : Nat) : Int) ≥ ((PATH_MAX : Nat) : Int)) := by
      intro h
      rcases h with h | h
      · exact h rfl
      · have : PATH_MAX ≤ s.length := by exact_mod_cast h
        omega
    have hz : ¬ (s.length = 0) := by omega
    have hq : ¬ ((readAll fd1 s.length).r ≤ 0) := by
      unfold readAll
      omega
    rw [if_neg hc, if_neg hz, if_neg hq]
    unfold readAll
    rw [q2, q3]
  rw [hval]
  refine ⟨by
    show (0 : Int) < (s.length : Int)
    omega, ?_, rfl⟩
  unfold on_dev_event
  congr 1
  apply cstr_of_cells _ s PATH_MAX 0 _ _ hmax
  · intro k hk
    have hne : ¬ (k = s.length) := by omega
    simp only [storeAt, storeBytes, Nat.zero_add, if_neg hne, if_pos hk]
  · simp [storeAt]

/-- The backlog drain over a backlog, in whatever arrivals it comes: every
device name is dispatched, in order, and the returned value is 0 when the
backlog ends with a frame of length zero and -1 on every other ending. -/
theorem getDevListLoop_backlog (fd : List ReadEv) (entries : List (List Nat)) (e : BacklogEnd)
    (h : Backlog fd entries e) : ∀ (buf : Nat → Nat) (evs : List DevEvent),
    (getDevListLoop (fdSize fd + 1) fd buf evs).ret = (if e = .emptyFrame then 0 else -1) ∧
      (getDevListLoop (fdSize fd + 1) fd buf evs).events
        = evs ++ entries.map (fun s => (⟨cName s, false, true⟩ : DevEvent)) := by
  induction h with
  | ending fd e he =>
    intro buf evs
    have hr := recvStr_ends fd e he buf
    have hnot : ¬ ((recvStr fd buf PATH_MAX).ret > 0) := by
      rw [hr]
      split_ifs <;> omega
    rw [getDevListLoop_step, if_neg hnot]
    exact ⟨hr, by simp⟩
  | entry fd hi lo fd1 s fd2 es e hh hlen hmax hd _ ih =>
    intro buf evs
    obtain ⟨h1, h2, h3⟩ := recvStr_name fd hi lo fd1 s fd2 buf hh hlen hmax hd
    rw [getDevListLoop_step, if_pos h1, h2, h3]
    obtain ⟨i1, i2⟩ := ih (recvStr fd buf PATH_MAX).buf (evs ++ [⟨cName s, false, true⟩])
    exact ⟨i1, by rw [i2]; simp⟩

/-- Every descriptor either hands over two length bytes in one read or holds
an ending of the backlog. -/
theorem header_cases (fd : List ReadEv) :
    (∃ hi lo fd1, Header fd hi lo fd1) ∨ (∃ e, Ends fd e) := by
  induction fd with
  | nil => exact Or.inr ⟨.eof, .used⟩
  | cons ev rest ih =>
    cases ev with
    | error errno =>
      by_cases he : errno = EINTR
      · subst he
        rcases ih with ⟨hi, lo, fd1, h⟩ | ⟨e, h⟩
        · exact Or.inl ⟨hi, lo, fd1, .eintr rest hi lo fd1 h⟩
        · exact Or.inr ⟨e, .eintr rest e h⟩
      · exact Or.inr ⟨.readError, .error errno rest he⟩
    | data bs =>
      match bs with
      | [] => exact Or.inr ⟨.eof, .eof rest⟩
      | [b] => exact Or.inr ⟨.splitLength, .split b rest⟩
      | [hi, lo] => exact Or.inl ⟨hi, lo, rest, .whole hi lo rest⟩
      | hi :: lo :: c :: extra =>
        exact Or.inl ⟨hi, lo, .data (c :: extra) :: rest,
          .part hi lo (c :: extra) rest (List.cons_ne_nil c extra)⟩

/-- Every descriptor either delivers `n` bytes or is cut short before them. -/
theorem payload_cases (fd : List ReadEv) (n : Nat) (hn : 0 < n) :
    (∃ bs fd1, Delivers fd bs fd1 ∧ bs.length = n) ∨ (∃ e, CutShort fd n e) := by
  induction fd generalizing n with
  | nil => exact Or.inr ⟨.eof, .used n⟩
  | cons ev rest ih =>
    cases ev with
    | error errno =>
      by_cases he : errno = EINTR
      · subst he
        rcases ih n hn with ⟨bs, fd1, h, hl⟩ | ⟨e, h⟩
        · exact Or.inl ⟨bs, fd1, .eintr rest bs fd1 h, hl⟩
        · exact Or.inr ⟨e, .eintr rest n e h⟩
      · exact Or.inr ⟨.readError, .error errno rest n he⟩
    | data a =>
      by_cases ha : a = []
      · subst ha
        exact Or.inr ⟨.eof, .eof rest n⟩
      · have hl : 0 < a.length := List.length_pos.mpr ha
        by_cases h1 : a.length < n
        · rcases ih (n - a.length) (by omega) with ⟨bs, fd1, h, hb⟩ | ⟨e, h⟩
          · refine Or.inl ⟨a ++ bs, fd1, .more a rest bs fd1 ha h, ?_⟩
            rw [List.length_append, hb]
            omega
          · exact Or.inr ⟨e, .more a rest n e ha h1 h⟩
        · by_cases h2 : a.length = n
          · exact Or.inl ⟨a, rest, .whole a rest ha, h2⟩
          · have ht : a.take n ≠ [] := by
              intro h
              have := congrArg List.length h
              rw [List.length_take] at this
              simp only [List.length_nil] at this
              omega
            have hd : a.drop n ≠ [] := by
              intro h
              have := congrArg List.length h
              rw [List.length_drop] at this
              simp only [List.length_nil] at this
              omega
            have hp := Delivers.part (a.take n) (a.drop n) rest ht hd
            rw [List.take_append_drop] at hp
            refine Or.inl ⟨a.take n, .data (a.drop n) :: rest, hp, ?_⟩
            rw [List.length_take]
            omega

/-- Reading the two length bytes takes something off the descriptor. -/
theorem Header_fdSize (fd : List ReadEv) (hi lo : Nat) (fd1 : List ReadEv)
    (h : Header fd hi lo fd1) : fdSize fd1 < fdSize fd := by
  have hp : readAllFrom fd 2 [] = ⟨2, [hi, lo], fd1⟩ := readAll_header fd hi lo fd1 h
  have := (readAllFrom_fdSize fd 2 []).2
  rw [hp] at this
  exact this (by norm_num)

/-- Reading a payload takes something off the descriptor. -/
theorem Delivers_fdSize (fd : List ReadEv) (bs : List Nat) (fd1 : List ReadEv)
    (h : Delivers fd bs fd1) : fdSize fd1 < fdSize fd := by
  obtain ⟨q1, _, q3⟩ := readAllFrom_delivers fd bs fd1 h []
  have := (readAllFrom_fdSize fd bs.length []).2 q1
  rw [q3] at this
  exact this

/-- Whatever is on a descriptor of a given size is a backlog. -/
theorem backlog_total_of_size (n : Nat) :
    ∀ fd : List ReadEv, fdSize fd = n → ∃ entries e, Backlog fd entries e := by
  induction n using Nat.strong_induction_on with
  | _ n ih =>
    intro fd hsz
    rcases header_cases fd with ⟨hi, lo, fd1, hh⟩ | ⟨e, he⟩
    · by_cases hz : wireLength hi lo = 0
      · exact ⟨[], .emptyFrame, .ending fd _ (.empty fd hi lo fd1 hh hz)⟩
      · by_cases hl : PATH_MAX ≤ wireLength hi lo
        · exact ⟨[], .longFrame, .ending fd _ (.long fd hi lo fd1 hh hl)⟩
        · rcases payload_cases fd1 (wireLength hi lo) (by omega) with ⟨s, fd2, hd, hs⟩ | ⟨e, hc⟩
          · have h1 := Header_fdSize fd hi lo fd1 hh
            have h2 := Delivers_fdSize fd1 s fd2 hd
            obtain ⟨es, e, hb⟩ := ih (fdSize fd2) (by omega) fd2 rfl
            exact ⟨s :: es, e, .entry fd hi lo fd1 s fd2 es e hh hs.symm (by omega) hd hb⟩
          · exact ⟨[], e, .ending fd e
              (.cut fd hi lo fd1 e hh (by omega) (by omega) hc)⟩
    · exact ⟨[], e, .ending fd e he⟩

/-- Whatever is on a descriptor is a backlog: some device names and then one
of the endings. -/
theorem backlog_total (fd : List ReadEv) : ∃ entries e, Backlog fd entries e :=
  backlog_total_of_size (fdSize fd) fd rfl

/-- Whatever is on the event connection, when connect, the subscribe send,
the pipe and the thread creation succeed, a start ends in one of two ways:
the drain returned 0, the thread runs and the call returns success; or the
drain returned -1, no thread was created, the two pipe ends and the
connection are closed, the variables are reset and the call returns
`LIBUSB_ERROR_OTHER`. -/
theorem start_event_monitor_outcome (env : StartEnv) (g : Globals)
    (hsock : 0 ≤ env.socket) (hconn : 0 ≤ env.connect)
    (hsend : (sendStr env.out []).ret = 0) (hpipe : env.pipe_r = 0)
    (hthr : env.pthread_create = 0) :
    (linux_android_helper_start_event_monitor env g).events
        = (getDevList env.fd (fun _ => 0)).events ∧
      (((getDevList env.fd (fun _ => 0)).ret = 0 ∧
          linux_android_helper_start_event_monitor env g
            = ⟨ LIBUSB_SUCCESS, ⟨env.socket, env.pipe_fds⟩, [],
                (getDevList env.fd (fun _ => 0)).events, true⟩) ∨
        ((getDevList env.fd (fun _ => 0)).ret = -1 ∧
          linux_android_helper_start_event_monitor env g
            = ⟨ LIBUSB_ERROR_OTHER, ⟨-1, (-1, -1)⟩, [env.pipe_fds.2, env.pipe_fds.1, env.socket],
                (getDevList env.fd (fun _ => 0)).events, false⟩)) := by
  have h1 : ¬ env.socket < 0 := by omega
  have h2 : ¬ env.connect < 0 := by omega
  have hopen : servConnOpen env.socket env.connect = (env.socket, []) := by
    simp only [servConnOpen, if_neg h1, if_neg h2]
  have hne : ¬ (env.socket = -1) := by omega
  have hs : ¬ ((sendStr env.out []).ret ≠ 0) := by simp [hsend]
  have hp : ¬ (env.pipe_r ≠ 0) := by simp [hpipe]
  have ht : ¬ (env.pthread_create ≠ 0) := by simp [hthr]
  rcases getDevListLoop_ret (fdSize env.fd + 1) env.fd (fun _ => 0) [] with hd | hd
  · have hd1 : (getDevList env.fd (fun _ => 0)).ret = 0 := hd
    have hd2 : ¬ ((getDevList env.fd (fun _ => 0)).ret ≠ 0) := by simp [hd1]
    have hval : linux_android_helper_start_event_monitor env g
        = ⟨ LIBUSB_SUCCESS, ⟨env.socket, env.pipe_fds⟩, [],
            (getDevList env.fd (fun _ => 0)).events, true⟩ := by
      simp only [linux_android_helper_start_event_monitor, hopen, if_neg hne, if_neg hs,
        if_neg hp, if_neg hd2, if_neg ht]
    exact ⟨by rw [hval], Or.inl ⟨hd1, hval⟩⟩
  · have hd1 : (getDevList env.fd (fun _ => 0)).ret = -1 := hd
    have hd2 : (getDevList env.fd (fun _ => 0)).ret ≠ 0 := by
      rw [hd1]
      decide
    have hval : linux_android_helper_start_event_monitor env g
        = ⟨ LIBUSB_ERROR_OTHER, ⟨-1, (-1, -1)⟩, [env.pipe_fds.2, env.pipe_fds.1, env.socket],
            (getDevList env.fd (fun _ => 0)).events, false⟩ := by
      simp only [linux_android_helper_start_event_monitor, hopen, if_neg hne, if_neg hs,
        if_neg hp, if_pos hd2, List.nil_append]
    exact ⟨by rw [hval], Or.inr ⟨hd1, hval⟩⟩

/-- C10: given that connect, the subscribe send, the pipe creation and the
thread creation succeed.  Whatever is on the event connection is a backlog of
device names and then an ending, the bytes coming in whatever arrivals; and
for every such reading of it, `linux_android_helper_start_event_monitor`
returns `LIBUSB_SUCCESS` if and only if the ending is a frame of length zero,
and it then has created the thread and closed nothing; on every other ending
(end of file, a read failure, a split length, a declared length of
`PATH_MAX` or more) `getDevList` returns -1 and the start creates no thread,
closes the write end and the read end of the pipe and the connection, resets
`event_ctl_pipe` to -1, -1 and `event_fd` to -1 and returns
`LIBUSB_ERROR_OTHER`.  In both cases the names read before the ending have
been dispatched, in order. -/
theorem start_event_monitor_backlog (env : StartEnv) (g : Globals)
    (hsock : 0 ≤ env.socket) (hconn : 0 ≤ env.connect)
    (hsend : (sendStr env.out []).ret = 0) (hpipe : env.pipe_r = 0)
    (hthr : env.pthread_create = 0) :
    (∃ entries e, Backlog env.fd entries e) ∧
      ∀ (entries : List (List Nat)) (e : BacklogEnd), Backlog env.fd entries e →
        ((linux_android_helper_start_event_monitor env g).ret = LIBUSB_SUCCESS
          ↔ e = .emptyFrame) ∧
        (linux_android_helper_start_event_monitor env g).events
          = entries.map (fun s => (⟨cName s, false, true⟩ : DevEvent)) ∧
        (e = .emptyFrame →
          (linux_android_helper_start_event_monitor env g).thread = true ∧
          (linux_android_helper_start_event_monitor env g).globals
            = ⟨env.socket, env.pipe_fds⟩ ∧
          (linux_android_helper_start_event_monitor env g).closed = []) ∧
        (e ≠ .emptyFrame →
          (getDevList env.fd (fun _ => 0)).ret = -1 ∧
          (linux_android_helper_start_event_monitor env g).thread = false ∧
          (linux_android_helper_start_event_monitor env g).closed
            = [env.pipe_fds.2, env.pipe_fds.1, env.socket] ∧
          (linux_android_helper_start_event_monitor env g).globals = ⟨-1, (-1, -1)⟩ ∧
          (linux_android_helper_start_event_monitor env g).ret = LIBUSB_ERROR_OTHER) := by
  refine ⟨backlog_total env.fd, ?_⟩
  intro entries e hB
  obtain ⟨hev, hout⟩ := start_event_monitor_outcome env g hsock hconn hsend hpipe hthr
  obtain ⟨hret, hevents⟩ := getDevListLoop_backlog env.fd entries e hB (fun _ => 0) []
  have hdret : (getDevList env.fd (fun _ => 0)).ret = if e = .emptyFrame then 0 else -1 :=
    hret
  have hdev : (getDevList env.fd (fun _ => 0)).events
      = entries.map (fun s => (⟨cName s, false, true⟩ : DevEvent)) := by
    simpa using hevents
  by_cases hE : e = .emptyFrame
  · rw [if_pos hE] at hdret
    rcases hout with ⟨_, hval⟩ | ⟨hm, _⟩
    · rw [hval]
      refine ⟨⟨fun _ => hE, fun _ => rfl⟩, hdev, fun _ => ⟨rfl, rfl, rfl⟩, fun h => absurd hE h⟩
    · rw [hdret] at hm
      exact absurd hm (by decide)
  · rw [if_neg hE] at hdret
    rcases hout with ⟨hz, _⟩ | ⟨_, hval⟩
    · rw [hdret] at hz
      exact absurd hz (by decide)
    · rw [hval]
      refine ⟨⟨fun h => ?_, fun h => absurd h hE⟩, hdev, fun h => absurd h hE,
        fun _ => ⟨hdret, rfl, rfl, rfl, rfl⟩⟩
      have hne : LIBUSB_ERROR_OTHER ≠ LIBUSB_SUCCESS := by decide
      exact absurd h hne

/-- C10 on connection 5 with the pipe 6, 7, at a backlog of the two names
"ab" and "c" and then a frame of length zero, where the length of "ab" is an
arrival of its own, its payload comes in two reads with an interrupted read
between them, and the second of these arrivals also holds the frame of "c"
and the ending. -/
theorem start_event_monitor_backlog_witness :
    ((linux_android_helper_start_event_monitor
          ⟨5, 0, [.accept 2], 0, (6, 7),
            [.data [0, 2], .data [97], .error 4, .data [98, 0, 1, 99, 0, 0]], 0⟩
          Globals.init).ret = LIBUSB_SUCCESS
        ↔ BacklogEnd.emptyFrame = .emptyFrame) ∧
      (linux_android_helper_start_event_monitor
          ⟨5, 0, [.accept 2], 0, (6, 7),
            [.data [0, 2], .data [97], .error 4, .data [98, 0, 1, 99, 0, 0]], 0⟩
          Globals.init).events
        = [[97, 98], [99]].map (fun s => (⟨cName s, false, true⟩ : DevEvent)) ∧
      (BacklogEnd.emptyFrame = .emptyFrame →
        (linux_android_helper_start_event_monitor
          ⟨5, 0, [.accept 2], 0, (6, 7),
            [.data [0, 2], .data [97], .error 4, .data [98, 0, 1, 99, 0, 0]], 0⟩
          Globals.init).thread = true ∧
        (linux_android_helper_start_event_monitor
          ⟨5, 0, [.accept 2], 0, (6, 7),
            [.data [0, 2], .data [97], .error 4, .data [98, 0, 1, 99, 0, 0]], 0⟩
          Globals.init).globals = ⟨5, (6, 7)⟩ ∧
        (linux_android_helper_start_event_monitor
          ⟨5, 0, [.accept 2], 0, (6, 7),
            [.data [0, 2], .data [97], .error 4, .data [98, 0, 1, 99, 0, 0]], 0⟩
          Globals.init).closed = []) ∧
      (BacklogEnd.emptyFrame ≠ .emptyFrame →
        (getDevList [.data [0, 2], .data [97], .error 4, .data [98, 0, 1, 99, 0, 0]]
          (fun _ => 0)).ret = -1 ∧
        (linux_android_helper_start_event_monitor
          ⟨5, 0, [.accept 2], 0, (6, 7),
            [.data [0, 2], .data [97], .error 4, .data [98, 0, 1, 99, 0, 0]], 0⟩
          Globals.init).thread = false ∧
        (linux_android_helper_start_event_monitor
          ⟨5, 0, [.accept 2], 0, (6, 7),
            [.data [0, 2], .data [97], .error 4, .data [98, 0, 1, 99, 0, 0]], 0⟩
          Globals.init).closed = [7, 6, 5] ∧
        (linux_android_helper_start_event_monitor
          ⟨5, 0, [.accept 2], 0, (6, 7),
            [.data [0, 2], .data [97], .error 4, .data [98, 0, 1, 99, 0, 0]], 0⟩
          Globals.init).globals = ⟨-1, (-1, -1)⟩ ∧
        (linux_android_helper_start_event_monitor
          ⟨5, 0, [.accept 2], 0, (6, 7),
            [.data [0, 2], .data [97], .error 4, .data [98, 0, 1, 99, 0, 0]], 0⟩
          Globals.init).ret = LIBUSB_ERROR_OTHER) :=
  (start_event_monitor_backlog
    ⟨5, 0, [.accept 2], 0, (6, 7),
            [.data [0, 2], .data [97], .error 4, .data [98, 0, 1, 99, 0, 0]], 0⟩
    Globals.init (by decide) (by decide) (by decide) (by decide) (by decide)).2
    [[97, 98], [99]] .emptyFrame
    (.entry _ 0 2 [.data [97], .error 4, .data [98, 0, 1, 99, 0, 0]] [97, 98]
      [.data [0, 1, 99, 0, 0]] [[99]] .emptyFrame
      (.whole 0 2 _) (by decide) (by decide)
      (.more [97] [.error 4, .data [98, 0, 1, 99, 0, 0]] [98] [.data [0, 1, 99, 0, 0]]
        (by decide)
        (.eintr [.data [98, 0, 1, 99, 0, 0]] [98] [.data [0, 1, 99, 0, 0]]
          (.part [98] [0, 1, 99, 0, 0] [] (by decide) (by decide))))
      (.entry _ 0 1 [.data [99, 0, 0]] [99] [.data [0, 0]] [] .emptyFrame
        (.part 0 1 [99, 0, 0] [] (by decide)) (by decide) (by decide)
        (.part [99] [0, 0] [] (by decide) (by decide))
        (.ending _ .emptyFrame (.empty _ 0 0 [] (.whole 0 0 []) (by decide)))))

end AndroidHelper
